import Mathlib

/-!
Verification of the detection post-processing and temporal-aggregation
pipeline of `imageai/Detection/Custom/__init__.py`.

The Python source is shallowly embedded: floating-point values are modelled
as rationals (`ℚ`), the NumPy `sigmoid`/`exp` primitives are abstract
parameters of type `ℚ → ℚ` (the theorems hold for any instantiation and use
only the properties actually guaranteed by the real functions, stated as
hypotheses where needed), Python `int()` truncation toward zero is `pyInt`,
and Python dictionaries keyed by the contiguous frame indices `1..n` are
modelled as plain lists whose position `i` holds the entry for key `i+1`.
-/

/-- The `BoundBox` value class (source lines 1309-1330): four coordinates,
an objectness score and the mutable per-class score vector.  The lazily
cached `label`/`score` fields are derived data not touched by any modelled
operation and are omitted. -/
structure BoundBox where
  xmin : ℚ
  ymin : ℚ
  xmax : ℚ
  ymax : ℚ
  objness : ℚ
  classes : List ℚ
  deriving Repr, DecidableEq

instance : Inhabited BoundBox := ⟨⟨0, 0, 0, 0, 0, []⟩⟩

/-- Python `int()` applied to a rational: truncation toward zero. -/
def pyInt (q : ℚ) : ℤ :=
  if 0 ≤ q then ⌊q⌋ else ⌈q⌉

/-- `CustomDetectionUtils._interval_overlap` (source lines 1402-1414):
1-D overlap of `[x1, x2]` and `[x3, x4]`. -/
def interval_overlap (x1 x2 x3 x4 : ℚ) : ℚ :=
  if x3 < x1 then
    if x4 < x1 then 0 else min x2 x4 - x1
  else
    if x2 < x3 then 0 else min x2 x4 - x3

/-- The `intersect` local of `CustomDetectionUtils.bbox_iou` (source lines
1417-1419): product of the per-axis interval overlaps. -/
def bbox_intersect (box1 box2 : BoundBox) : ℚ :=
  interval_overlap box1.xmin box1.xmax box2.xmin box2.xmax
    * interval_overlap box1.ymin box1.ymax box2.ymin box2.ymax

/-- The `union` local of `CustomDetectionUtils.bbox_iou` (source lines
1420-1422): `w1*h1 + w2*h2 - intersect`. -/
def bbox_union (box1 box2 : BoundBox) : ℚ :=
  (box1.xmax - box1.xmin) * (box1.ymax - box1.ymin)
    + (box2.xmax - box2.xmin) * (box2.ymax - box2.ymin)
    - bbox_intersect box1 box2

/-- `CustomDetectionUtils.bbox_iou` (source lines 1416-1428): intersection
over union.  The Python `try/except` around `float(intersect)/float(union)`
returns `0.0` on `ZeroDivisionError`, i.e. exactly when the union is zero;
the model makes that branch explicit. -/
def bbox_iou (box1 box2 : BoundBox) : ℚ :=
  if bbox_union box1 box2 = 0 then 0
  else bbox_intersect box1 box2 / bbox_union box1 box2

/-- A box is well formed when its min coordinates do not exceed its max
coordinates on both axes. -/
def BoundBox.wf (b : BoundBox) : Prop :=
  b.xmin ≤ b.xmax ∧ b.ymin ≤ b.ymax

instance (b : BoundBox) : Decidable b.wf := by
  unfold BoundBox.wf; infer_instance

lemma interval_overlap_self (a c : ℚ) (h : a ≤ c) :
    interval_overlap a c a c = c - a := by
  simp [interval_overlap, not_lt.mpr h, min_self, lt_irrefl]

lemma interval_overlap_right_of (a c d e : ℚ) (hac : a ≤ c) (hde : d ≤ e)
    (h : c ≤ d) : interval_overlap a c d e = 0 := by
  unfold interval_overlap
  rcases lt_or_ge d a with hlt | hge
  · exact absurd (hlt.trans_le (hac.trans h)) (lt_irrefl d)
  · rw [if_neg (not_lt.mpr hge)]
    rcases lt_or_ge c d with h2 | h2
    · rw [if_pos h2]
    · rw [if_neg (not_lt.mpr h2)]
      have hcd : c = d := le_antisymm h h2
      have hmin : min c e = c := min_eq_left (by linarith)
      rw [hmin, hcd]
      ring

lemma interval_overlap_left_of (a c d e : ℚ) (hac : a ≤ c) (hde : d ≤ e)
    (h : e ≤ a) : interval_overlap a c d e = 0 := by
  unfold interval_overlap
  rcases lt_or_ge d a with hlt | hge
  · rw [if_pos hlt]
    rcases lt_or_ge e a with h2 | h2
    · rw [if_pos h2]
    · rw [if_neg (not_lt.mpr h2)]
      have hea : e = a := le_antisymm h h2
      have hmin : min c e = e := min_eq_right (by linarith)
      rw [hmin, hea]
      ring
  · rw [if_neg (not_lt.mpr hge)]
    have hda : d = a := le_antisymm (hde.trans h) hge
    rcases lt_or_ge c d with h2 | h2
    · rw [if_pos h2]
    · rw [if_neg (not_lt.mpr h2)]
      have hmin : min c e = e := min_eq_right (by linarith)
      rw [hmin]
      have : e = d := by linarith
      rw [this]
      ring

lemma interval_overlap_comm (a c d e : ℚ) (hac : a ≤ c) (hde : d ≤ e) :
    interval_overlap a c d e = interval_overlap d e a c := by
  unfold interval_overlap
  rcases lt_trichotomy d a with h | h | h
  · rw [if_pos h, if_neg (not_lt.mpr h.le)]
    rcases lt_or_ge e a with h2 | h2
    · rw [if_pos h2, if_pos h2]
    · rw [if_neg (not_lt.mpr h2), if_neg (not_lt.mpr h2), min_comm]
  · subst h
    rw [if_neg (lt_irrefl d), if_neg (lt_irrefl d),
      if_neg (not_lt.mpr hac), if_neg (not_lt.mpr hde), min_comm]
  · rw [if_neg (not_lt.mpr h.le), if_pos h]
    rcases lt_or_ge c d with h2 | h2
    · rw [if_pos h2, if_pos h2]
    · rw [if_neg (not_lt.mpr h2), if_neg (not_lt.mpr h2), min_comm]

lemma bbox_intersect_comm (b1 b2 : BoundBox) (h1 : b1.wf) (h2 : b2.wf) :
    bbox_intersect b1 b2 = bbox_intersect b2 b1 := by
  unfold bbox_intersect
  rw [interval_overlap_comm b1.xmin b1.xmax b2.xmin b2.xmax h1.1 h2.1,
    interval_overlap_comm b1.ymin b1.ymax b2.ymin b2.ymax h1.2 h2.2]

lemma bbox_union_comm (b1 b2 : BoundBox) (h1 : b1.wf) (h2 : b2.wf) :
    bbox_union b1 b2 = bbox_union b2 b1 := by
  unfold bbox_union
  rw [bbox_intersect_comm b1 b2 h1 h2]
  ring

lemma bbox_iou_comm (b1 b2 : BoundBox) (h1 : b1.wf) (h2 : b2.wf) :
    bbox_iou b1 b2 = bbox_iou b2 b1 := by
  unfold bbox_iou
  rw [bbox_intersect_comm b1 b2 h1 h2, bbox_union_comm b1 b2 h1 h2]

/-- C6 counterexample: for the identical pair of zero-area boxes at the
origin, `bbox_iou` returns `0`, not `1` as the claim's
"1 for every pair of identical boxes" requires (the zero-union branch
wins). -/
theorem bbox_iou_identical_zero_area_not_one :
    bbox_iou ⟨0, 0, 0, 0, 0, []⟩ ⟨0, 0, 0, 0, 0, []⟩ ≠ 1 ∧
      bbox_iou ⟨0, 0, 0, 0, 0, []⟩ ⟨0, 0, 0, 0, 0, []⟩ = 0 := by
  constructor <;>
    norm_num [bbox_iou, bbox_union, bbox_intersect, interval_overlap]

/-- C6 (amended): `bbox_iou` returns 0 for every pair of well-formed boxes
that are separated (or merely touching) on some axis; returns 1 for every
pair of identical boxes of nonzero area; and returns a defined result of 0
— never a division fault — whenever the computed union area is 0 (which
includes identical zero-area boxes). -/
theorem bbox_iou_spec :
    (∀ b1 b2 : BoundBox, b1.wf → b2.wf →
      (b1.xmax ≤ b2.xmin ∨ b2.xmax ≤ b1.xmin ∨
        b1.ymax ≤ b2.ymin ∨ b2.ymax ≤ b1.ymin) →
      bbox_iou b1 b2 = 0) ∧
    (∀ b : BoundBox, b.xmin < b.xmax → b.ymin < b.ymax →
      bbox_iou b b = 1) ∧
    (∀ b1 b2 : BoundBox, bbox_union b1 b2 = 0 → bbox_iou b1 b2 = 0) := by
  refine ⟨?_, ?_, ?_⟩
  · intro b1 b2 h1 h2 hdisj
    have hzero : bbox_intersect b1 b2 = 0 := by
      unfold bbox_intersect
      rcases hdisj with h | h | h | h
      · rw [interval_overlap_right_of _ _ _ _ h1.1 h2.1 h, zero_mul]
      · rw [interval_overlap_left_of _ _ _ _ h1.1 h2.1 h, zero_mul]
      · rw [interval_overlap_right_of _ _ _ _ h1.2 h2.2 h, mul_zero]
      · rw [interval_overlap_left_of _ _ _ _ h1.2 h2.2 h, mul_zero]
    unfold bbox_iou
    rw [hzero]
    split
    · rfl
    · rw [zero_div]
  · intro b hx hy
    have harea : (0 : ℚ) < (b.xmax - b.xmin) * (b.ymax - b.ymin) :=
      mul_pos (by linarith) (by linarith)
    have hint : bbox_intersect b b = (b.xmax - b.xmin) * (b.ymax - b.ymin) := by
      unfold bbox_intersect
      rw [interval_overlap_self _ _ hx.le, interval_overlap_self _ _ hy.le]
    have hunion : bbox_union b b = (b.xmax - b.xmin) * (b.ymax - b.ymin) := by
      unfold bbox_union
      rw [hint]
      ring
    unfold bbox_iou
    rw [hint, hunion, if_neg (ne_of_gt harea), div_self (ne_of_gt harea)]
  · intro b1 b2 hunion
    unfold bbox_iou
    rw [if_pos hunion]

/-- Witness for C6: concrete disjoint, identical-positive-area and
zero-union pairs evaluated through `bbox_iou_spec`. -/
theorem bbox_iou_spec_witness :
    bbox_iou ⟨0, 0, 1, 1, 0, []⟩ ⟨2, 0, 3, 1, 0, []⟩ = 0 ∧
      bbox_iou ⟨0, 0, 4, 2, 0, []⟩ ⟨0, 0, 4, 2, 0, []⟩ = 1 ∧
      bbox_iou ⟨5, 5, 5, 5, 0, []⟩ ⟨5, 5, 5, 5, 0, []⟩ = 0 :=
  ⟨bbox_iou_spec.1 ⟨0, 0, 1, 1, 0, []⟩ ⟨2, 0, 3, 1, 0, []⟩
      (by constructor <;> norm_num) (by constructor <;> norm_num)
      (Or.inl (by norm_num)),
    bbox_iou_spec.2.1 ⟨0, 0, 4, 2, 0, []⟩ (by norm_num) (by norm_num),
    bbox_iou_spec.2.2 ⟨5, 5, 5, 5, 0, []⟩ ⟨5, 5, 5, 5, 0, []⟩
      (by norm_num [bbox_union, bbox_intersect, interval_overlap])⟩

/-- The elementwise masking `netout[..., 5:] *= netout[..., 5:] > obj_thresh`
of `decode_netout` (source line 1362): a class probability is kept only when
strictly above the threshold, else multiplied by `False = 0`. -/
def maskScore (obj_thresh p : ℚ) : ℚ :=
  if p > obj_thresh then p else 0

/-- The destructive tensor update at the start of
`CustomDetectionUtils.decode_netout` (source lines 1359-1362), read as a
function of the raw tensor: sigmoid on channels 0-1 and 4.., then class
channels (5..) are multiplied by the transformed objectness (channel 4) and
masked by `maskScore`.  `sig` abstracts the NumPy `_sigmoid` primitive. -/
def netout_transformed (sig : ℚ → ℚ) (obj_thresh : ℚ)
    (netout : Nat → Nat → Nat → Nat → ℚ) (row col b ch : Nat) : ℚ :=
  if ch < 2 then sig (netout row col b ch)
  else if ch = 4 then sig (netout row col b ch)
  else if 5 ≤ ch then
    maskScore obj_thresh (sig (netout row col b 4) * sig (netout row col b ch))
  else netout row col b ch

/-- `CustomDetectionUtils.decode_netout` (source lines 1348-1381).  The raw
tensor of shape `(grid_h, grid_w, 3 * (5 + nb_class))` is modelled as the
indexing function `netout row col b ch`; `nb_box = 3` is hardcoded in the
source; `sig` and `ex` abstract the NumPy `_sigmoid` and `np.exp`
primitives; the Python `anchors[i]` read is modelled totally with
`List.getD` (the deployed anchor list always has length `6`). -/
def decode_netout (sig ex : ℚ → ℚ) (netout : Nat → Nat → Nat → Nat → ℚ)
    (anchors : List ℚ) (obj_thresh : ℚ) (net_h net_w : ℚ)
    (grid_h grid_w nb_class : Nat) : List BoundBox :=
  (List.range grid_h).flatMap fun row =>
    (List.range grid_w).flatMap fun col =>
      (List.range 3).filterMap fun b =>
        let t := netout_transformed sig obj_thresh netout
        let objectness := t row col b 4
        if objectness > obj_thresh then
          let x := ((col : ℚ) + t row col b 0) / (grid_w : ℚ)
          let y := ((row : ℚ) + t row col b 1) / (grid_h : ℚ)
          let w := anchors.getD (2 * b) 0 * ex (t row col b 2) / net_w
          let h := anchors.getD (2 * b + 1) 0 * ex (t row col b 3) / net_h
          some ⟨x - w / 2, y - h / 2, x + w / 2, y + h / 2, objectness,
            (List.range nb_class).map fun k => t row col b (5 + k)⟩
        else none

lemma length_flatMap_le {α β : Type} (l : List α) (f : α → List β) (k : Nat)
    (hf : ∀ a ∈ l, (f a).length ≤ k) : (l.flatMap f).length ≤ l.length * k := by
  rw [List.length_flatMap]
  have := List.sum_le_card_nsmul (l.map fun a => (f a).length) k (by
    intro x hx
    rw [List.mem_map] at hx
    obtain ⟨a, ha, rfl⟩ := hx
    exact hf a ha)
  simpa using this

lemma netout_transformed_objectness (sig : ℚ → ℚ) (obj_thresh : ℚ)
    (netout : Nat → Nat → Nat → Nat → ℚ) (row col b : Nat) :
    netout_transformed sig obj_thresh netout row col b 4 =
      sig (netout row col b 4) := by
  simp [netout_transformed]

lemma mem_decode_netout {sig ex : ℚ → ℚ} {netout : Nat → Nat → Nat → Nat → ℚ}
    {anchors : List ℚ} {obj_thresh : ℚ} {net_h net_w : ℚ}
    {grid_h grid_w nb_class : Nat} {box : BoundBox}
    (h : box ∈ decode_netout sig ex netout anchors obj_thresh net_h net_w
      grid_h grid_w nb_class) :
    ∃ row < grid_h, ∃ col < grid_w, ∃ b < 3,
      netout_transformed sig obj_thresh netout row col b 4 > obj_thresh ∧
      box = (let t := netout_transformed sig obj_thresh netout
        let x := ((col : ℚ) + t row col b 0) / (grid_w : ℚ)
        let y := ((row : ℚ) + t row col b 1) / (grid_h : ℚ)
        let w := anchors.getD (2 * b) 0 * ex (t row col b 2) / net_w
        let h := anchors.getD (2 * b + 1) 0 * ex (t row col b 3) / net_h
        (⟨x - w / 2, y - h / 2, x + w / 2, y + h / 2, t row col b 4,
          (List.range nb_class).map fun k => t row col b (5 + k)⟩ : BoundBox)) := by
  unfold decode_netout at h
  rw [List.mem_flatMap] at h
  obtain ⟨row, hrow, h⟩ := h
  rw [List.mem_flatMap] at h
  obtain ⟨col, hcol, h⟩ := h
  rw [List.mem_filterMap] at h
  obtain ⟨b, hb, h⟩ := h
  refine ⟨row, List.mem_range.mp hrow, col, List.mem_range.mp hcol,
    b, List.mem_range.mp hb, ?_⟩
  by_cases hobj :
      netout_transformed sig obj_thresh netout row col b 4 > obj_thresh
  · simp only [hobj, if_pos] at h
    exact ⟨hobj, (Option.some_inj.mp h).symm⟩
  · simp only [hobj, if_neg, if_false] at h
    exact absurd h (by simp)

/-- C5: `decode_netout` returns at most `grid_h * grid_w * 3` boxes (the
anchor count per cell is the hardcoded `nb_box = 3`); every returned box
carries as objectness the sigmoid of its raw objectness channel, strictly
greater than `obj_thresh`; and every class score it carries is either `0`
or strictly greater than `obj_thresh`. -/
theorem decode_netout_spec (sig ex : ℚ → ℚ)
    (netout : Nat → Nat → Nat → Nat → ℚ) (anchors : List ℚ)
    (obj_thresh : ℚ) (net_h net_w : ℚ) (grid_h grid_w nb_class : Nat) :
    (decode_netout sig ex netout anchors obj_thresh net_h net_w
      grid_h grid_w nb_class).length ≤ grid_h * grid_w * 3 ∧
    ∀ box ∈ decode_netout sig ex netout anchors obj_thresh net_h net_w
        grid_h grid_w nb_class,
      (∃ row < grid_h, ∃ col < grid_w, ∃ b < 3,
        box.objness = sig (netout row col b 4)) ∧
      box.objness > obj_thresh ∧
      ∀ s ∈ box.classes, s = 0 ∨ s > obj_thresh := by
  constructor
  · unfold decode_netout
    refine le_trans (length_flatMap_le _ _ (grid_w * 3) ?_)
      (by simp [mul_assoc])
    intro row _
    refine le_trans (length_flatMap_le _ _ 3 ?_) (by simp)
    intro col _
    exact le_trans (List.length_filterMap_le _ _) (by simp)
  · intro box hbox
    obtain ⟨row, hrow, col, hcol, b, hb, hobj, hbox⟩ := mem_decode_netout hbox
    subst hbox
    refine ⟨⟨row, hrow, col, hcol, b, hb, ?_⟩, ?_, ?_⟩
    · exact netout_transformed_objectness sig obj_thresh netout row col b
    · exact hobj
    · intro s hs
      simp only [List.mem_map, List.mem_range] at hs
      obtain ⟨k, _, hk⟩ := hs
      subst hk
      unfold netout_transformed
      have h5 : ¬(5 + k < 2) := by omega
      have h4 : ¬(5 + k = 4) := by omega
      have hge : 5 ≤ 5 + k := by omega
      rw [if_neg h5, if_neg h4, if_pos hge]
      unfold maskScore
      split
      · right; assumption
      · left; rfl

/-- Witness for C5 at a concrete one-cell tensor: grid 1×1, a single
class, a constant `9/10` sigmoid stand-in and zero anchors, so the decoder
emits the explicit box below; its objectness exceeds the threshold `1/2`
and its single class score is above the threshold, by
`decode_netout_spec`. -/
theorem decode_netout_spec_witness :
    (decode_netout (fun _ => 9/10) (fun _ => 0) (fun _ _ _ _ => 0)
      [0, 0, 0, 0, 0, 0] (1/2) 1 1 1 1 1).length ≤ 1 * 1 * 3 ∧
    (⟨9/10, 9/10, 9/10, 9/10, 9/10, [81/100]⟩ : BoundBox)
      ∈ decode_netout (fun _ => 9/10) (fun _ => 0) (fun _ _ _ _ => 0)
        [0, 0, 0, 0, 0, 0] (1/2) 1 1 1 1 1 ∧
    (⟨9/10, 9/10, 9/10, 9/10, 9/10, [81/100]⟩ : BoundBox).objness > 1/2 := by
  have hmem : (⟨9/10, 9/10, 9/10, 9/10, 9/10, [81/100]⟩ : BoundBox)
      ∈ decode_netout (fun _ => 9/10) (fun _ => 0) (fun _ _ _ _ => 0)
        [0, 0, 0, 0, 0, 0] (1/2) 1 1 1 1 1 := by
    norm_num [decode_netout, netout_transformed, maskScore, List.range_succ]
  exact ⟨(decode_netout_spec (fun _ => 9/10) (fun _ => 0) (fun _ _ _ _ => 0)
      [0, 0, 0, 0, 0, 0] (1/2) 1 1 1 1 1).1,
    hmem,
    ((decode_netout_spec (fun _ => 9/10) (fun _ => 0) (fun _ _ _ _ => 0)
      [0, 0, 0, 0, 0, 0] (1/2) 1 1 1 1 1).2 _ hmem).2.1⟩

/-- `CustomDetectionUtils.correct_yolo_boxes` (source lines 1383-1400).
Because `new_w, new_h = net_w, net_h` (line 1388), the computed
`x_offset/x_scale/y_offset/y_scale` are identically `0, 1, 0, 1` and feed
only a warning print; the effective in-place update is the pure pixel-scale
multiply with Python `int()` truncation of lines 1397-1400.  `net_h` and
`net_w` are kept as parameters to mirror the signature. -/
def correct_yolo_boxes (boxes : List BoundBox)
    (image_h image_w net_h net_w : ℚ) : List BoundBox :=
  boxes.map fun b =>
    { b with
      xmin := (pyInt (b.xmin * image_w) : ℚ)
      xmax := (pyInt (b.xmax * image_w) : ℚ)
      ymin := (pyInt (b.ymin * image_h) : ℚ)
      ymax := (pyInt (b.ymax * image_h) : ℚ) }

lemma pyInt_mono {a b : ℚ} (h : a ≤ b) : pyInt a ≤ pyInt b := by
  unfold pyInt
  by_cases ha : 0 ≤ a <;> by_cases hb : 0 ≤ b
  · rw [if_pos ha, if_pos hb]
    exact Int.floor_le_floor h
  · exact absurd (ha.trans h) hb
  · rw [if_neg ha, if_pos hb]
    have h1 : (⌈a⌉ : ℤ) ≤ 0 := Int.ceil_le.mpr (by
      push_neg at ha
      exact_mod_cast ha.le)
    have h2 : (0 : ℤ) ≤ ⌊b⌋ := Int.floor_nonneg.mpr hb
    omega
  · rw [if_neg ha, if_neg hb]
    exact Int.ceil_le_ceil h

lemma getD_nonneg_of_mem_nonneg {l : List ℚ} (h : ∀ a ∈ l, 0 ≤ a)
    (k : Nat) : 0 ≤ l.getD k 0 := by
  rw [List.getD_eq_getElem?_getD]
  rcases hk : l[k]? with _ | a
  · simp
  · simp only [Option.getD_some]
    exact h a (List.getElem?_mem hk)

lemma getD_map_of_lt {α β : Type} [Inhabited α] [Inhabited β]
    (f : α → β) (l : List α) (i : Nat) (hi : i < l.length) :
    (l.map f).getD i default = f (l.getD i default) := by
  rw [List.getD_eq_getElem?_getD, List.getD_eq_getElem?_getD,
    List.getElem?_map]
  rcases hk : l[i]? with _ | a
  · exact absurd (List.getElem?_eq_none_iff.mp hk) (by omega)
  · simp

/-- Boxes decoded by `decode_netout` are well formed, provided the anchors
are nonnegative, the `exp` primitive is nonnegative and the network input
size is positive (all true in deployment: anchors are pixel priors,
`np.exp > 0`, `net_w = net_h = 416`). -/
lemma decode_netout_wf (sig ex : ℚ → ℚ)
    (netout : Nat → Nat → Nat → Nat → ℚ) (anchors : List ℚ)
    (obj_thresh : ℚ) (net_h net_w : ℚ) (grid_h grid_w nb_class : Nat)
    (hex : ∀ q, 0 ≤ ex q) (hanch : ∀ a ∈ anchors, 0 ≤ a)
    (hnw : 0 < net_w) (hnh : 0 < net_h) :
    ∀ box ∈ decode_netout sig ex netout anchors obj_thresh net_h net_w
      grid_h grid_w nb_class, box.wf := by
  intro box hbox
  obtain ⟨row, _, col, _, b, _, _, hbox⟩ := mem_decode_netout hbox
  subst hbox
  have hw : 0 ≤ anchors.getD (2 * b) 0 *
      ex (netout_transformed sig obj_thresh netout row col b 2) / net_w :=
    div_nonneg (mul_nonneg (getD_nonneg_of_mem_nonneg hanch _) (hex _)) hnw.le
  have hh : 0 ≤ anchors.getD (2 * b + 1) 0 *
      ex (netout_transformed sig obj_thresh netout row col b 3) / net_h :=
    div_nonneg (mul_nonneg (getD_nonneg_of_mem_nonneg hanch _) (hex _)) hnh.le
  constructor
  · show _ - _ / 2 ≤ _ + _ / 2
    linarith
  · show _ - _ / 2 ≤ _ + _ / 2
    linarith

/-- C7: after `correct_yolo_boxes`, every coordinate of every box equals its
normalized value multiplied by the matching image dimension and truncated to
integer (Python `int()`), and — for box lists produced by `decode_netout`
under the deployment facts about anchors, `np.exp` and the network input
size, with nonnegative image dimensions — every corrected box satisfies
`xmin ≤ xmax` and `ymin ≤ ymax`. -/
theorem correct_yolo_boxes_spec :
    (∀ (boxes : List BoundBox) (image_h image_w net_h net_w : ℚ) (i : Nat),
      i < boxes.length →
      ((correct_yolo_boxes boxes image_h image_w net_h net_w).getD i default).xmin
          = (pyInt ((boxes.getD i default).xmin * image_w) : ℚ) ∧
        ((correct_yolo_boxes boxes image_h image_w net_h net_w).getD i default).xmax
          = (pyInt ((boxes.getD i default).xmax * image_w) : ℚ) ∧
        ((correct_yolo_boxes boxes image_h image_w net_h net_w).getD i default).ymin
          = (pyInt ((boxes.getD i default).ymin * image_h) : ℚ) ∧
        ((correct_yolo_boxes boxes image_h image_w net_h net_w).getD i default).ymax
          = (pyInt ((boxes.getD i default).ymax * image_h) : ℚ)) ∧
    (∀ (sig ex : ℚ → ℚ) (netout : Nat → Nat → Nat → Nat → ℚ)
      (anchors : List ℚ) (obj_thresh : ℚ) (net_h net_w image_h image_w : ℚ)
      (grid_h grid_w nb_class : Nat),
      (∀ q, 0 ≤ ex q) → (∀ a ∈ anchors, 0 ≤ a) →
      0 < net_w → 0 < net_h → 0 ≤ image_w → 0 ≤ image_h →
      ∀ box ∈ correct_yolo_boxes
        (decode_netout sig ex netout anchors obj_thresh net_h net_w
          grid_h grid_w nb_class) image_h image_w net_h net_w,
        box.xmin ≤ box.xmax ∧ box.ymin ≤ box.ymax) := by
  constructor
  · intro boxes image_h image_w net_h net_w i hi
    unfold correct_yolo_boxes
    rw [getD_map_of_lt _ _ _ hi]
    exact ⟨rfl, rfl, rfl, rfl⟩
  · intro sig ex netout anchors obj_thresh net_h net_w image_h image_w
      grid_h grid_w nb_class hex hanch hnw hnh hiw hih box hbox
    unfold correct_yolo_boxes at hbox
    rw [List.mem_map] at hbox
    obtain ⟨b0, hb0, hbox⟩ := hbox
    subst hbox
    have hwf := decode_netout_wf sig ex netout anchors obj_thresh net_h net_w
      grid_h grid_w nb_class hex hanch hnw hnh b0 hb0
    constructor
    · show ((pyInt (b0.xmin * image_w) : ℤ) : ℚ) ≤ (pyInt (b0.xmax * image_w) : ℚ)
      exact_mod_cast pyInt_mono (mul_le_mul_of_nonneg_right hwf.1 hiw)
    · show ((pyInt (b0.ymin * image_h) : ℤ) : ℚ) ≤ (pyInt (b0.ymax * image_h) : ℚ)
      exact_mod_cast pyInt_mono (mul_le_mul_of_nonneg_right hwf.2 hih)

/-- Witness for C7: a concrete one-box list for the coordinate part, and a
concrete decoded-and-corrected box for the well-formedness part, both
through `correct_yolo_boxes_spec`. -/
theorem correct_yolo_boxes_spec_witness :
    (((correct_yolo_boxes [⟨1/10, 1/5, 1/2, 3/5, 1, [1]⟩] 100 200 416 416).getD
        0 default).xmin
      = (pyInt ((([⟨1/10, 1/5, 1/2, 3/5, 1, [1]⟩] : List BoundBox).getD
        0 default).xmin * 200) : ℚ)) ∧
    (⟨180, 90, 180, 90, 9/10, [81/100]⟩ : BoundBox)
      ∈ correct_yolo_boxes
        (decode_netout (fun _ => 9/10) (fun _ => 0) (fun _ _ _ _ => 0)
          [0, 0, 0, 0, 0, 0] (1/2) 1 1 1 1 1) 100 200 1 1 ∧
    (⟨180, 90, 180, 90, 9/10, [81/100]⟩ : BoundBox).xmin
      ≤ (⟨180, 90, 180, 90, 9/10, [81/100]⟩ : BoundBox).xmax := by
  have hmem : (⟨180, 90, 180, 90, 9/10, [81/100]⟩ : BoundBox)
      ∈ correct_yolo_boxes
        (decode_netout (fun _ => 9/10) (fun _ => 0) (fun _ _ _ _ => 0)
          [0, 0, 0, 0, 0, 0] (1/2) 1 1 1 1 1) 100 200 1 1 := by
    norm_num [decode_netout, netout_transformed, maskScore, List.range_succ,
      correct_yolo_boxes, pyInt]
  exact ⟨(correct_yolo_boxes_spec.1 [⟨1/10, 1/5, 1/2, 3/5, 1, [1]⟩] 100 200
      416 416 0 (by simp)).1,
    hmem,
    (correct_yolo_boxes_spec.2 (fun _ => 9/10) (fun _ => 0)
      (fun _ _ _ _ => 0) [0, 0, 0, 0, 0, 0] (1/2) 1 1 100 200 1 1 1
      (fun _ => le_refl 0) (by norm_num) (by norm_num) (by norm_num)
      (by norm_num) (by norm_num) _ hmem).1⟩

/-- The x centre `int((boxes[i].xmax + boxes[i].xmin) / 2)` of
`CustomDetectionUtils.RoI` (source line 1471). -/
def roiCentreX (b : BoundBox) : ℤ :=
  pyInt ((b.xmax + b.xmin) / 2)

/-- The y centre `int((boxes[i].ymax + boxes[i].ymin) / 2)` of
`CustomDetectionUtils.RoI` (source line 1472). -/
def roiCentreY (b : BoundBox) : ℤ :=
  pyInt ((b.ymax + b.ymin) / 2)

/-- The centre test of `CustomDetectionUtils.RoI` (source lines 1474-1475):
`x_centre not in range(roi[0], roi[1]) or y_centre not in range(roi[2], roi[3])`,
where the region list is ordered `[xmin, xmax, ymin, ymax]` and Python
`x in range(a, b)` for an integer means `a ≤ x < b`. -/
def roiOutside (r : List ℤ) (b : BoundBox) : Bool :=
  !(decide (r.getD 0 0 ≤ roiCentreX b) && decide (roiCentreX b < r.getD 1 0))
    || !(decide (r.getD 2 0 ≤ roiCentreY b) && decide (roiCentreY b < r.getD 3 0))

/-- The per-class score update of `CustomDetectionUtils.RoI` (source lines
1466-1476) for one box: class indices `c < nc` (with `nc` taken from
`boxes[0]`) whose score is truthy (nonzero) are zeroed when the box centre
lies outside the region. -/
def roiClassesAux (outside : Bool) (nc c : Nat) : List ℚ → List ℚ
  | [] => []
  | v :: vs =>
    (if c < nc ∧ v ≠ 0 ∧ outside then 0 else v)
      :: roiClassesAux outside nc (c + 1) vs

/-- The body of the outer `for i in range(len(boxes))` loop of
`CustomDetectionUtils.RoI` for one box. -/
def roiApplyBox (r : List ℤ) (nc : Nat) (b : BoundBox) : BoundBox :=
  { b with classes := roiClassesAux (roiOutside r b) nc 0 b.classes }

/-- `CustomDetectionUtils.RoI` (source lines 1454-1476).  The guard
`region_of_interest and len(region_of_interest) == 4` makes the filter a
no-op for `None` (and for any list whose length is not 4; the empty list is
additionally falsy, but its length is not 4 either). -/
def RoI (boxes : List BoundBox) (region_of_interest : Option (List ℤ)) :
    List BoundBox :=
  match region_of_interest with
  | some r =>
    if r.length = 4 then
      boxes.map (roiApplyBox r (boxes.headD default).classes.length)
    else boxes
  | none => boxes

lemma roiClassesAux_length (outside : Bool) (nc : Nat) (cs : List ℚ) :
    ∀ c, (roiClassesAux outside nc c cs).length = cs.length := by
  induction cs with
  | nil => intro c; rfl
  | cons v vs ih =>
    intro c
    simp only [roiClassesAux, List.length_cons, ih (c + 1)]

lemma roiClassesAux_idem (outside : Bool) (nc : Nat) (cs : List ℚ) :
    ∀ c, roiClassesAux outside nc c (roiClassesAux outside nc c cs) =
      roiClassesAux outside nc c cs := by
  induction cs with
  | nil => intro c; rfl
  | cons v vs ih =>
    intro c
    show roiClassesAux outside nc c
        ((if c < nc ∧ v ≠ 0 ∧ outside then 0 else v)
          :: roiClassesAux outside nc (c + 1) vs)
      = (if c < nc ∧ v ≠ 0 ∧ outside then 0 else v)
          :: roiClassesAux outside nc (c + 1) vs
    rw [roiClassesAux, ih (c + 1)]
    congr 1
    by_cases hP : c < nc ∧ v ≠ 0 ∧ outside
    · rw [if_pos hP, if_neg (by simp)]
    · rw [if_neg hP, if_neg hP]

lemma roiApplyBox_classes_length (r : List ℤ) (nc : Nat) (b : BoundBox) :
    (roiApplyBox r nc b).classes.length = b.classes.length :=
  roiClassesAux_length _ _ _ 0

lemma roiApplyBox_idem (r : List ℤ) (nc : Nat) (b : BoundBox) :
    roiApplyBox r nc (roiApplyBox r nc b) = roiApplyBox r nc b := by
  unfold roiApplyBox
  congr 1
  exact roiClassesAux_idem _ _ _ 0

/-- C8: the RoI filter is idempotent — applying it twice to any box list
with any `region_of_interest` value yields exactly the result of applying
it once, so in particular every box's class-score vector is unchanged by
the second application. -/
theorem RoI_idempotent (boxes : List BoundBox)
    (region_of_interest : Option (List ℤ)) :
    RoI (RoI boxes region_of_interest) region_of_interest =
      RoI boxes region_of_interest := by
  rcases region_of_interest with _ | r
  · rfl
  · by_cases hr : r.length = 4
    · cases boxes with
      | nil => simp [RoI, hr]
      | cons b0 bs =>
        simp only [RoI, if_pos hr, List.map_cons, List.headD_cons]
        rw [roiApplyBox_classes_length, List.map_map]
        have hcomp : roiApplyBox r b0.classes.length ∘
            roiApplyBox r b0.classes.length = roiApplyBox r b0.classes.length :=
          funext fun b => roiApplyBox_idem r b0.classes.length b
        rw [hcomp]
        congr 1
        exact roiApplyBox_idem r b0.classes.length b0
    · simp [RoI, hr]

/-- `CustomDetectionUtils.get_boxes` (source lines 1478-1490): every
(box, label) pair whose class score strictly exceeds the threshold yields
one output triple with the score scaled to a percentage; the three parallel
result lists are modelled as one list of triples.  The Python
`box.classes[i]` read is modelled totally with `List.getD`. -/
def get_boxes (boxes : List BoundBox) (labels : List String) (thresh : ℚ) :
    List (BoundBox × String × ℚ) :=
  boxes.flatMap fun box =>
    (List.range labels.length).filterMap fun i =>
      if box.classes.getD i 0 > thresh then
        some (box, labels.getD i "", box.classes.getD i 0 * 100)
      else none

/-- NumPy `np.max(a, 0)` for a scalar `a`: the second positional argument
is the `axis`, not a second operand, and reducing a scalar (0-d) input over
axis 0 returns the scalar itself — it is not a clamp to zero. -/
def npMaxAxis0 (a : ℚ) : ℚ := a

/-- One entry of `output_objects_array` built by
`CustomObjectDetection.detectObjectsFromImage` (source lines 844-851). -/
structure OutputObject where
  name : String
  percentage_probability : ℚ
  box_points : List ℚ
  deriving Repr, DecidableEq

instance : Inhabited OutputObject := ⟨⟨"", 0, []⟩⟩


/-- The `output_objects_array.append(...)` loop of `detectObjectsFromImage`
(source lines 844-851): `box_points` is
`[np.max(xmin, 0), np.max(ymin, 0), xmax, ymax]`. -/
def buildOutputObjects (triples : List (BoundBox × String × ℚ)) :
    List OutputObject :=
  triples.map fun t =>
    { name := t.2.1
      percentage_probability := t.2.2
      box_points := [npMaxAxis0 t.1.xmin, npMaxAxis0 t.1.ymin,
        t.1.xmax, t.1.ymax] }

/-- C9: every detection dictionary built by `detectObjectsFromImage` has
`box_points` exactly `[xmin, ymin, xmax, ymax]` of its (corrected) box —
`np.max(coord, 0)` passes `0` as the `axis` argument and is the identity on
a scalar, not a clamp — and in particular a box protruding past the left or
top image edge yields negative `box_points` entries, as the concrete
conjunct shows. -/
theorem buildOutputObjects_box_points :
    (∀ (boxes : List BoundBox) (labels : List String) (thresh : ℚ),
      ∀ o ∈ buildOutputObjects (get_boxes boxes labels thresh),
        ∃ b ∈ boxes, o.box_points = [b.xmin, b.ymin, b.xmax, b.ymax]) ∧
    (buildOutputObjects
        (get_boxes [⟨-5, -3, 10, 20, 1, [9/10]⟩] ["object"] (1/2))).map
      (fun o => o.box_points) = [[-5, -3, 10, 20]] := by
  constructor
  · intro boxes labels thresh o ho
    unfold buildOutputObjects at ho
    rw [List.mem_map] at ho
    obtain ⟨t, ht, ho⟩ := ho
    unfold get_boxes at ht
    rw [List.mem_flatMap] at ht
    obtain ⟨box, hbox, ht⟩ := ht
    rw [List.mem_filterMap] at ht
    obtain ⟨i, _, ht⟩ := ht
    refine ⟨box, hbox, ?_⟩
    subst ho
    by_cases hc : box.classes.getD i 0 > thresh
    · rw [if_pos hc] at ht
      obtain rfl := Option.some_inj.mp ht
      rfl
    · rw [if_neg hc] at ht
      exact absurd ht (by simp)
  · norm_num [buildOutputObjects, get_boxes, npMaxAxis0, List.filterMap]

/-- Witness for C9: the general part applied at the concrete
negative-coordinate box, whose `box_points` come out exactly as the
(negative) corrected coordinates. -/
theorem buildOutputObjects_box_points_witness :
    ((buildOutputObjects
        (get_boxes [⟨-5, -3, 10, 20, 1, [9/10]⟩] ["object"] (1/2))).headD
      default).box_points = [-5, -3, 10, 20] := by
  obtain ⟨b, hb, heq⟩ := buildOutputObjects_box_points.1
    [⟨-5, -3, 10, 20, 1, [9/10]⟩] ["object"] (1/2)
    ((buildOutputObjects
      (get_boxes [⟨-5, -3, 10, 20, 1, [9/10]⟩] ["object"] (1/2))).headD
        default)
    (by norm_num [buildOutputObjects, get_boxes, npMaxAxis0,
      List.filterMap])
  rw [heq, List.mem_singleton.mp hb]


/-- The score read `boxes[i].classes[c]`, modelled totally: out-of-range
reads give `0`. -/
def classScore (boxes : List BoundBox) (i c : Nat) : ℚ :=
  (boxes.getD i default).classes.getD c 0

/-- Zero class `c` of one box. -/
def zeroClass (c : Nat) (b : BoundBox) : BoundBox :=
  { b with classes := b.classes.set c 0 }

/-- The in-place suppression write `boxes[sorted_indices[j]].classes[c] = 0`
of `do_nms` (source line 1452); a `List.set` at the index (all indices
supplied by the sweep are in range, coming from `argsort`). -/
def setClassZero (boxes : List BoundBox) (i c : Nat) : List BoundBox :=
  boxes.set i (zeroClass c (boxes.getD i default))

/-- Insertion of index `i` into an index list sorted by strictly descending
score. -/
def insertDesc (scores : List ℚ) (i : Nat) : List Nat → List Nat
  | [] => [i]
  | j :: js =>
    if scores.getD i 0 > scores.getD j 0 then i :: j :: js
    else j :: insertDesc scores i js

/-- `np.argsort([-box.classes[c] for box in boxes])` (source line 1440):
the box indices ordered by descending class-`c` score.  NumPy's quicksort
leaves the tie order unspecified; the model uses insertion order for ties,
on which no modelled property depends. -/
def argsortDesc (scores : List ℚ) : List Nat :=
  (List.range scores.length).foldl (fun acc i => insertDesc scores i acc) []

/-- The inner `for j in range(i + 1, len(sorted_indices))` loop of `do_nms`
(source lines 1448-1452) with outer box index `si`: every later index whose
IoU with box `si` meets the threshold has its class-`c` score zeroed. -/
def nmsSuppress (nms_thresh : ℚ) (c si : Nat) (js : List Nat)
    (boxes : List BoundBox) : List BoundBox :=
  js.foldl (fun bs j =>
    if bbox_iou (bs.getD si default) (bs.getD j default) ≥ nms_thresh then
      setClassZero bs j c
    else bs) boxes

/-- The outer `for i in range(len(sorted_indices))` loop of `do_nms`
(source lines 1443-1452) for one class `c`: an outer index acts only while
its own class-`c` score is still truthy (nonzero). -/
def nmsSweep (nms_thresh : ℚ) (c : Nat) :
    List Nat → List BoundBox → List BoundBox
  | [], boxes => boxes
  | si :: rest, boxes =>
    nmsSweep nms_thresh c rest
      (if classScore boxes si c ≠ 0 then nmsSuppress nms_thresh c si rest boxes
        else boxes)

/-- One iteration of the `for c in range(len(boxes[0].classes))` loop of
`do_nms`: sort the indices by the current class-`c` scores, then sweep. -/
def nmsClassPass (nms_thresh : ℚ) (bs : List BoundBox) (c : Nat) :
    List BoundBox :=
  nmsSweep nms_thresh c
    (argsortDesc (bs.map fun box => box.classes.getD c 0)) bs

/-- `CustomDetectionUtils.do_nms` (source lines 1430-1452): guarded by
`if len(boxes):`, one greedy class pass per class index of `boxes[0]`. -/
def do_nms (boxes : List BoundBox) (nms_thresh : ℚ) : List BoundBox :=
  if boxes.length = 0 then boxes
  else (List.range (boxes.headD default).classes.length).foldl
    (nmsClassPass nms_thresh) boxes

/-- Two boxes agreeing on all four coordinates. -/
def geomEq (b b2 : BoundBox) : Prop :=
  b.xmin = b2.xmin ∧ b.ymin = b2.ymin ∧ b.xmax = b2.xmax ∧ b.ymax = b2.ymax

/-- Invariant carried through all NMS passes: the list length, every box's
coordinates and every class-vector length are unchanged (NMS only zeroes
scores). -/
def nmsInv (orig bs : List BoundBox) : Prop :=
  bs.length = orig.length ∧
  ∀ i, geomEq (orig.getD i default) (bs.getD i default) ∧
    (bs.getD i default).classes.length = (orig.getD i default).classes.length

/-- Scores only ever change to `0` across NMS passes. -/
def scoresMono (old new : List BoundBox) : Prop :=
  ∀ i c, classScore new i c = classScore old i c ∨ classScore new i c = 0

lemma geomEq_refl (b : BoundBox) : geomEq b b := ⟨rfl, rfl, rfl, rfl⟩

lemma nmsInv_refl (bs : List BoundBox) : nmsInv bs bs :=
  ⟨rfl, fun i => ⟨geomEq_refl _, rfl⟩⟩

lemma geomEq_trans {a b c : BoundBox} (h1 : geomEq a b) (h2 : geomEq b c) :
    geomEq a c :=
  ⟨h1.1.trans h2.1, h1.2.1.trans h2.2.1, h1.2.2.1.trans h2.2.2.1,
    h1.2.2.2.trans h2.2.2.2⟩

lemma nmsInv_trans {a b c : List BoundBox} (h1 : nmsInv a b)
    (h2 : nmsInv b c) : nmsInv a c :=
  ⟨h2.1.trans h1.1, fun i => ⟨geomEq_trans (h1.2 i).1 (h2.2 i).1,
    ((h2.2 i).2).trans (h1.2 i).2⟩⟩

lemma scoresMono_refl (bs : List BoundBox) : scoresMono bs bs :=
  fun _ _ => Or.inl rfl

lemma scoresMono_trans {a b c : List BoundBox} (h1 : scoresMono a b)
    (h2 : scoresMono b c) : scoresMono a c := by
  intro i cc
  rcases h2 i cc with h | h
  · rw [h]
    exact h1 i cc
  · exact Or.inr h

lemma scoresMono_zero {a b : List BoundBox} (h : scoresMono a b) {i c : Nat}
    (hz : classScore a i c = 0) : classScore b i c = 0 := by
  rcases h i c with h2 | h2
  · rw [h2, hz]
  · exact h2

lemma scoresMono_ne_zero {a b : List BoundBox} (h : scoresMono a b)
    {i c : Nat} (hnz : classScore b i c ≠ 0) :
    classScore b i c = classScore a i c := by
  rcases h i c with h2 | h2
  · exact h2
  · exact absurd h2 hnz

lemma bbox_iou_congr {a a2 b b2 : BoundBox} (ha : geomEq a a2)
    (hb : geomEq b b2) : bbox_iou a b = bbox_iou a2 b2 := by
  obtain ⟨ha1, ha2, ha3, ha4⟩ := ha
  obtain ⟨hb1, hb2, hb3, hb4⟩ := hb
  unfold bbox_iou bbox_union bbox_intersect
  rw [ha1, ha2, ha3, ha4, hb1, hb2, hb3, hb4]

lemma BoundBox_wf_of_geomEq {a b : BoundBox} (h : geomEq a b) (hwf : a.wf) :
    b.wf := by
  obtain ⟨h1, h2, h3, h4⟩ := h
  exact ⟨h1 ▸ h3 ▸ hwf.1, h2 ▸ h4 ▸ hwf.2⟩

lemma zeroClass_geomEq (c : Nat) (b : BoundBox) : geomEq b (zeroClass c b) :=
  ⟨rfl, rfl, rfl, rfl⟩

lemma getD_set_self {l : List BoundBox} {i : Nat} (a : BoundBox)
    (h : i < l.length) : (l.set i a).getD i default = a := by
  rw [List.getD_eq_getElem?_getD, List.getElem?_set_self (by simpa using h)]
  rfl

lemma getD_set_ne {l : List BoundBox} {i j : Nat} (a : BoundBox)
    (h : i ≠ j) : (l.set i a).getD j default = l.getD j default := by
  rw [List.getD_eq_getElem?_getD, List.getD_eq_getElem?_getD,
    List.getElem?_set_ne h]

lemma setClassZero_nmsInv (bs : List BoundBox) (j c : Nat) :
    nmsInv bs (setClassZero bs j c) := by
  unfold setClassZero
  by_cases hj : j < bs.length
  · refine ⟨List.length_set bs j _, fun i => ?_⟩
    by_cases hij : i = j
    · subst hij
      rw [getD_set_self _ hj]
      exact ⟨zeroClass_geomEq c _, by simp [zeroClass]⟩
    · rw [getD_set_ne _ (fun he => hij he.symm)]
      exact ⟨geomEq_refl _, rfl⟩
  · rw [List.set_eq_of_length_le (by omega)]
    exact nmsInv_refl bs

lemma getD_list_set_self_q {l : List ℚ} {c : Nat} :
    (l.set c 0).getD c 0 = 0 := by
  by_cases hc : c < l.length
  · rw [List.getD_eq_getElem?_getD, List.getElem?_set_self (by simpa using hc)]
    rfl
  · rw [List.set_eq_of_length_le (by omega), List.getD_eq_getElem?_getD,
      List.getElem?_eq_none_iff.mpr (by omega)]
    rfl

lemma getD_list_set_ne_q {l : List ℚ} {c c2 : Nat} (h : c2 ≠ c) :
    (l.set c 0).getD c2 0 = l.getD c2 0 := by
  rw [List.getD_eq_getElem?_getD, List.getD_eq_getElem?_getD,
    List.getElem?_set_ne (fun he => h he.symm)]

lemma setClassZero_score_self (bs : List BoundBox) (j c : Nat)
    (hj : j < bs.length) : classScore (setClassZero bs j c) j c = 0 := by
  unfold classScore setClassZero
  rw [getD_set_self _ hj]
  exact getD_list_set_self_q

lemma setClassZero_score_other (bs : List BoundBox) (j c i c2 : Nat)
    (h : i ≠ j ∨ c2 ≠ c) :
    classScore (setClassZero bs j c) i c2 = classScore bs i c2 := by
  unfold classScore setClassZero
  by_cases hij : i = j
  · subst hij
    rcases h with h | h
    · exact absurd rfl h
    · by_cases hi : i < bs.length
      · rw [getD_set_self _ hi]
        exact getD_list_set_ne_q h
      · rw [List.set_eq_of_length_le (by omega)]
  · rw [getD_set_ne _ (fun he => hij he.symm)]

lemma setClassZero_scoresMono (bs : List BoundBox) (j c : Nat) :
    scoresMono bs (setClassZero bs j c) := by
  intro i c2
  by_cases h : i = j ∧ c2 = c
  · obtain ⟨rfl, rfl⟩ := h
    by_cases hj : i < bs.length
    · exact Or.inr (setClassZero_score_self bs i c2 hj)
    · left
      unfold setClassZero
      rw [List.set_eq_of_length_le (by omega)]
  · rw [setClassZero_score_other bs j c i c2 (by tauto)]
    exact Or.inl rfl

lemma setClassZero_score_self0 (bs : List BoundBox) (j c : Nat) :
    classScore (setClassZero bs j c) j c = 0 := by
  by_cases hj : j < bs.length
  · exact setClassZero_score_self bs j c hj
  · unfold classScore setClassZero
    rw [List.set_eq_of_length_le (by omega)]
    have hd : bs.getD j default = default := by
      rw [List.getD_eq_getElem?_getD, List.getElem?_eq_none_iff.mpr (by omega)]
      rfl
    rw [hd]
    rfl

lemma nmsSuppress_nil (t : ℚ) (c si : Nat) (bs : List BoundBox) :
    nmsSuppress t c si [] bs = bs := rfl

lemma nmsSuppress_cons (t : ℚ) (c si j0 : Nat) (js : List Nat)
    (bs : List BoundBox) :
    nmsSuppress t c si (j0 :: js) bs = nmsSuppress t c si js
      (if bbox_iou (bs.getD si default) (bs.getD j0 default) ≥ t
        then setClassZero bs j0 c else bs) := rfl

lemma nmsSuppress_nmsInv (t : ℚ) (c si : Nat) :
    ∀ (js : List Nat) (bs : List BoundBox), nmsInv bs (nmsSuppress t c si js bs) := by
  intro js
  induction js with
  | nil => intro bs; exact nmsInv_refl bs
  | cons j0 rest ih =>
    intro bs
    rw [nmsSuppress_cons]
    refine nmsInv_trans ?_ (ih _)
    split
    · exact setClassZero_nmsInv bs j0 c
    · exact nmsInv_refl bs

lemma nmsSuppress_scoresMono (t : ℚ) (c si : Nat) :
    ∀ (js : List Nat) (bs : List BoundBox),
      scoresMono bs (nmsSuppress t c si js bs) := by
  intro js
  induction js with
  | nil => intro bs; exact scoresMono_refl bs
  | cons j0 rest ih =>
    intro bs
    rw [nmsSuppress_cons]
    refine scoresMono_trans ?_ (ih _)
    split
    · exact setClassZero_scoresMono bs j0 c
    · exact scoresMono_refl bs

lemma nmsSuppress_other (t : ℚ) (c si c2 : Nat) (hc2 : c2 ≠ c) :
    ∀ (js : List Nat) (bs : List BoundBox) (i : Nat),
      classScore (nmsSuppress t c si js bs) i c2 = classScore bs i c2 := by
  intro js
  induction js with
  | nil => intro bs i; rfl
  | cons j0 rest ih =>
    intro bs i
    rw [nmsSuppress_cons, ih]
    split
    · exact setClassZero_score_other bs j0 c i c2 (Or.inr hc2)
    · rfl

lemma nmsSuppress_zeroes (t : ℚ) (c si : Nat) :
    ∀ (js : List Nat) (bs : List BoundBox) (j : Nat), j ∈ js →
      bbox_iou (bs.getD si default) (bs.getD j default) ≥ t →
      classScore (nmsSuppress t c si js bs) j c = 0 := by
  intro js
  induction js with
  | nil => intro bs j hj; exact absurd hj (List.not_mem_nil j)
  | cons j0 rest ih =>
    intro bs j hj hiou
    rw [nmsSuppress_cons]
    rcases List.mem_cons.mp hj with rfl | hjrest
    · rw [if_pos hiou]
      exact scoresMono_zero (nmsSuppress_scoresMono t c si rest _)
        (setClassZero_score_self0 bs j c)
    · have hinv : nmsInv bs (if bbox_iou (bs.getD si default)
          (bs.getD j0 default) ≥ t then setClassZero bs j0 c else bs) := by
        split
        · exact setClassZero_nmsInv bs j0 c
        · exact nmsInv_refl bs
      refine ih _ j hjrest ?_
      rw [← bbox_iou_congr ((hinv.2 si).1) ((hinv.2 j).1)]
      exact hiou

lemma nmsSweep_nil (t : ℚ) (c : Nat) (bs : List BoundBox) :
    nmsSweep t c [] bs = bs := rfl

lemma nmsSweep_cons (t : ℚ) (c si : Nat) (rest : List Nat)
    (bs : List BoundBox) :
    nmsSweep t c (si :: rest) bs = nmsSweep t c rest
      (if classScore bs si c ≠ 0 then nmsSuppress t c si rest bs else bs) :=
  rfl

lemma nmsSweep_nmsInv (t : ℚ) (c : Nat) :
    ∀ (l : List Nat) (bs : List BoundBox), nmsInv bs (nmsSweep t c l bs) := by
  intro l
  induction l with
  | nil => intro bs; exact nmsInv_refl bs
  | cons si rest ih =>
    intro bs
    rw [nmsSweep_cons]
    refine nmsInv_trans ?_ (ih _)
    split
    · exact nmsSuppress_nmsInv t c si rest bs
    · exact nmsInv_refl bs

lemma nmsSweep_scoresMono (t : ℚ) (c : Nat) :
    ∀ (l : List Nat) (bs : List BoundBox),
      scoresMono bs (nmsSweep t c l bs) := by
  intro l
  induction l with
  | nil => intro bs; exact scoresMono_refl bs
  | cons si rest ih =>
    intro bs
    rw [nmsSweep_cons]
    refine scoresMono_trans ?_ (ih _)
    split
    · exact nmsSuppress_scoresMono t c si rest bs
    · exact scoresMono_refl bs

lemma nmsSweep_other (t : ℚ) (c c2 : Nat) (hc2 : c2 ≠ c) :
    ∀ (l : List Nat) (bs : List BoundBox) (i : Nat),
      classScore (nmsSweep t c l bs) i c2 = classScore bs i c2 := by
  intro l
  induction l with
  | nil => intro bs i; rfl
  | cons si rest ih =>
    intro bs i
    rw [nmsSweep_cons, ih]
    split
    · exact nmsSuppress_other t c si c2 hc2 rest bs i
    · rfl

/-- Greedy-sweep soundness for one class: if index `p` occurs before index
`q` in the processed order and both class-`c` scores are nonzero at the end
of the sweep, then their IoU (as compared by the sweep, on the unchanged
geometry) is below the threshold. -/
lemma nmsSweep_sound (t : ℚ) (c : Nat) :
    ∀ (l : List Nat) (bs : List BoundBox) (l1 l2 : List Nat) (p q : Nat),
      l = l1 ++ p :: l2 → q ∈ l2 →
      classScore (nmsSweep t c l bs) p c ≠ 0 →
      classScore (nmsSweep t c l bs) q c ≠ 0 →
      bbox_iou (bs.getD p default) (bs.getD q default) < t := by
  intro l
  induction l with
  | nil =>
    intro bs l1 l2 p q hsplit
    exact absurd hsplit (by simp)
  | cons si rest ih =>
    intro bs l1 l2 p q hsplit hq hp hqne
    rw [nmsSweep_cons] at hp hqne
    have hinvstep : nmsInv bs (if classScore bs si c ≠ 0
        then nmsSuppress t c si rest bs else bs) := by
      split
      · exact nmsSuppress_nmsInv t c si rest bs
      · exact nmsInv_refl bs
    cases l1 with
    | nil =>
      simp only [List.nil_append] at hsplit
      injection hsplit with h1 h2
      rw [← h1] at hp ⊢
      rw [← h2] at hq
      have hmono2 : scoresMono _ (nmsSweep t c rest
          (if classScore bs si c ≠ 0 then nmsSuppress t c si rest bs
            else bs)) :=
        nmsSweep_scoresMono t c rest _
      have hsibs2 : classScore (if classScore bs si c ≠ 0
          then nmsSuppress t c si rest bs else bs) si c ≠ 0 := by
        intro h0
        exact hp (scoresMono_zero hmono2 h0)
      have hsibs : classScore bs si c ≠ 0 := by
        intro h0
        apply hsibs2
        refine scoresMono_zero ?_ h0
        split
        · exact nmsSuppress_scoresMono t c si rest bs
        · exact scoresMono_refl bs
      by_contra hge
      push_neg at hge
      have hz : classScore (if classScore bs si c ≠ 0
          then nmsSuppress t c si rest bs else bs) q c = 0 := by
        rw [if_pos hsibs]
        exact nmsSuppress_zeroes t c si rest bs q hq hge
      exact hqne (scoresMono_zero hmono2 hz)
    | cons x l1x =>
      have hsx : si = x ∧ rest = l1x ++ p :: l2 := by
        rw [List.cons_append] at hsplit
        injection hsplit with h1 h2
        exact ⟨h1, h2⟩
      have hres := ih _ l1x l2 p q hsx.2 hq hp hqne
      rw [bbox_iou_congr ((hinvstep.2 p).1) ((hinvstep.2 q).1)]
      exact hres

lemma insertDesc_mem (scores : List ℚ) (i a : Nat) :
    ∀ l : List Nat, (a ∈ insertDesc scores i l ↔ a = i ∨ a ∈ l) := by
  intro l
  induction l with
  | nil => simp [insertDesc]
  | cons j js ih =>
    unfold insertDesc
    split
    · simp
    · simp only [List.mem_cons, ih]
      tauto

lemma foldl_insertDesc_mem (scores : List ℚ) (a : Nat) :
    ∀ (l : List Nat) (acc : List Nat),
      (a ∈ l.foldl (fun acc i => insertDesc scores i acc) acc ↔
        a ∈ acc ∨ a ∈ l) := by
  intro l
  induction l with
  | nil => simp
  | cons i is ih =>
    intro acc
    rw [List.foldl_cons, ih, insertDesc_mem]
    simp only [List.mem_cons]
    tauto

lemma argsortDesc_mem (scores : List ℚ) (i : Nat) (h : i < scores.length) :
    i ∈ argsortDesc scores := by
  unfold argsortDesc
  rw [foldl_insertDesc_mem]
  right
  simpa using h

lemma mem_pair_split {l : List Nat} {a b : Nat} (ha : a ∈ l) (hb : b ∈ l)
    (hab : a ≠ b) :
    (∃ l1 l2, l = l1 ++ a :: l2 ∧ b ∈ l2) ∨
    (∃ l1 l2, l = l1 ++ b :: l2 ∧ a ∈ l2) := by
  induction l with
  | nil => exact absurd ha (List.not_mem_nil a)
  | cons x xs ih =>
    rcases List.mem_cons.mp ha with rfl | ha2
    · left
      exact ⟨[], xs, rfl,
        (List.mem_cons.mp hb).resolve_left fun he => hab he.symm⟩
    · rcases List.mem_cons.mp hb with rfl | hb2
      · right
        exact ⟨[], xs, rfl, ha2⟩
      · rcases ih ha2 hb2 with ⟨l1, l2, heq, hm⟩ | ⟨l1, l2, heq, hm⟩
        · left
          exact ⟨x :: l1, l2, by rw [heq]; rfl, hm⟩
        · right
          exact ⟨x :: l1, l2, by rw [heq]; rfl, hm⟩

lemma nmsClassPass_nmsInv (t : ℚ) (bs : List BoundBox) (c : Nat) :
    nmsInv bs (nmsClassPass t bs c) :=
  nmsSweep_nmsInv t c _ bs

lemma nmsClassPass_other (t : ℚ) (bs : List BoundBox) (c c2 : Nat)
    (hc2 : c2 ≠ c) (i : Nat) :
    classScore (nmsClassPass t bs c) i c2 = classScore bs i c2 :=
  nmsSweep_other t c c2 hc2 _ bs i

lemma foldl_pass_other (t : ℚ) :
    ∀ (cs : List Nat) (c2 : Nat), c2 ∉ cs → ∀ (bs : List BoundBox) (i : Nat),
      classScore (cs.foldl (nmsClassPass t) bs) i c2 = classScore bs i c2 := by
  intro cs
  induction cs with
  | nil => intro c2 _ bs i; rfl
  | cons c0 rest ih =>
    intro c2 hc2 bs i
    rw [List.foldl_cons,
      ih c2 (fun hm => hc2 (List.mem_cons.mpr (Or.inr hm))),
      nmsClassPass_other t bs c0 c2
        (fun he => hc2 (List.mem_cons.mpr (Or.inl he)))]

lemma foldl_pass_nmsInv (t : ℚ) :
    ∀ (cs : List Nat) (bs : List BoundBox),
      nmsInv bs (cs.foldl (nmsClassPass t) bs) := by
  intro cs
  induction cs with
  | nil => intro bs; exact nmsInv_refl bs
  | cons c0 rest ih =>
    intro bs
    rw [List.foldl_cons]
    exact nmsInv_trans (nmsClassPass_nmsInv t bs c0) (ih _)

lemma foldl_pass_sound (t : ℚ) :
    ∀ (cs : List Nat) (bs : List BoundBox) (c : Nat), cs.Nodup → c ∈ cs →
    ∀ a b, a < bs.length → b < bs.length → a ≠ b →
    classScore (cs.foldl (nmsClassPass t) bs) a c ≠ 0 →
    classScore (cs.foldl (nmsClassPass t) bs) b c ≠ 0 →
    bbox_iou (bs.getD a default) (bs.getD b default) < t ∨
      bbox_iou (bs.getD b default) (bs.getD a default) < t := by
  intro cs
  induction cs with
  | nil => intro bs c _ hc; exact absurd hc (List.not_mem_nil c)
  | cons c0 rest ih =>
    intro bs c hnodup hc a b ha hb hab hka hkb
    rw [List.foldl_cons] at hka hkb
    by_cases hcc : c = c0
    · subst hcc
      have hcrest : c ∉ rest := (List.nodup_cons.mp hnodup).1
      rw [foldl_pass_other t rest c hcrest] at hka hkb
      unfold nmsClassPass at hka hkb
      have hamem : a ∈ argsortDesc (bs.map fun box => box.classes.getD c 0) :=
        argsortDesc_mem _ a (by simpa using ha)
      have hbmem : b ∈ argsortDesc (bs.map fun box => box.classes.getD c 0) :=
        argsortDesc_mem _ b (by simpa using hb)
      rcases mem_pair_split hamem hbmem hab with
        ⟨l1, l2, heq, hm⟩ | ⟨l1, l2, heq, hm⟩
      · left
        exact nmsSweep_sound t c _ bs l1 l2 a b heq hm hka hkb
      · right
        exact nmsSweep_sound t c _ bs l1 l2 b a heq hm hkb hka
    · have hcrest : c ∈ rest := (List.mem_cons.mp hc).resolve_left hcc
      have hinv : nmsInv bs (nmsClassPass t bs c0) :=
        nmsClassPass_nmsInv t bs c0
      have ha2 : a < (nmsClassPass t bs c0).length := by
        rw [hinv.1]
        exact ha
      have hb2 : b < (nmsClassPass t bs c0).length := by
        rw [hinv.1]
        exact hb
      rcases ih (nmsClassPass t bs c0) c (List.nodup_cons.mp hnodup).2 hcrest
          a b ha2 hb2 hab hka hkb with h | h
      · left
        rw [bbox_iou_congr ((hinv.2 a).1) ((hinv.2 b).1)]
        exact h
      · right
        rw [bbox_iou_congr ((hinv.2 b).1) ((hinv.2 a).1)]
        exact h

/-- C2 counterexample: with a degenerate first box (`xmax < xmin`) the
claim fails as stated — after `do_nms` at threshold `9/20` both boxes keep
a nonzero score for class 0, yet their pairwise IoU taken as
`bbox_iou(second, first)` is `1 ≥ 9/20` (`bbox_iou` is asymmetric on
degenerate boxes: the sweep compared only `bbox_iou(first, second) = 0`). -/
theorem do_nms_pairwise_counterexample :
    classScore (do_nms [⟨0, 0, -1, -1, 0, [9/10]⟩, ⟨0, 0, 1, 1, 0, [8/10]⟩]
      (9/20)) 0 0 ≠ 0 ∧
    classScore (do_nms [⟨0, 0, -1, -1, 0, [9/10]⟩, ⟨0, 0, 1, 1, 0, [8/10]⟩]
      (9/20)) 1 0 ≠ 0 ∧
    bbox_iou ((do_nms [⟨0, 0, -1, -1, 0, [9/10]⟩, ⟨0, 0, 1, 1, 0, [8/10]⟩]
        (9/20)).getD 1 default)
      ((do_nms [⟨0, 0, -1, -1, 0, [9/10]⟩, ⟨0, 0, 1, 1, 0, [8/10]⟩]
        (9/20)).getD 0 default) ≥ 9/20 := by
  refine ⟨?_, ?_, ?_⟩ <;>
    norm_num [do_nms, nmsClassPass, nmsSweep, nmsSuppress, argsortDesc,
      insertDesc, setClassZero, zeroClass, classScore, bbox_iou, bbox_union,
      bbox_intersect, interval_overlap, List.range_succ]

/-- C2 (amended): for every non-empty list of well-formed boxes
(`xmin ≤ xmax`, `ymin ≤ ymax`) all carrying class-score vectors of the same
length, after `do_nms(boxes, t)` no two distinct boxes that both retain a
nonzero score for the same class index have pairwise IoU `≥ t` (in either
order); and in the concrete scenario of two same-class boxes with IoU
`9/10` and scores `9/10` and `8/10` at `t = 9/20`, only the `9/10`-score
box keeps a nonzero score for that class. -/
theorem do_nms_spec :
    (∀ (boxes : List BoundBox) (t : ℚ),
      boxes ≠ [] →
      (∀ b ∈ boxes, b.wf) →
      (∀ b ∈ boxes, b.classes.length = (boxes.headD default).classes.length) →
      ∀ a b c, a < boxes.length → b < boxes.length → a ≠ b →
        classScore (do_nms boxes t) a c ≠ 0 →
        classScore (do_nms boxes t) b c ≠ 0 →
        bbox_iou ((do_nms boxes t).getD a default)
          ((do_nms boxes t).getD b default) < t) ∧
    bbox_iou ⟨0, 0, 100, 95, 1, [9/10]⟩ ⟨0, 5, 100, 100, 1, [8/10]⟩
        = 9/10 ∧
    (do_nms [⟨0, 0, 100, 95, 1, [9/10]⟩, ⟨0, 5, 100, 100, 1, [8/10]⟩]
      (9/20)).map (fun bb => bb.classes) = [[9/10], [0]] := by
  refine ⟨?_, ?_, ?_⟩
  · intro boxes t hne hwf hlen a b c ha hb hab hka hkb
    have hlz : ¬boxes.length = 0 := by
      cases boxes
      · exact absurd rfl hne
      · simp
    have hdo : do_nms boxes t =
        (List.range (boxes.headD default).classes.length).foldl
          (nmsClassPass t) boxes := by
      unfold do_nms
      rw [if_neg hlz]
    have hinv : nmsInv boxes (do_nms boxes t) := by
      rw [hdo]
      exact foldl_pass_nmsInv t _ boxes
    have hmema : boxes.getD a default ∈ boxes := by
      rw [List.getD_eq_getElem _ _ ha]
      exact List.getElem_mem ha
    have hmemb : boxes.getD b default ∈ boxes := by
      rw [List.getD_eq_getElem _ _ hb]
      exact List.getElem_mem hb
    by_cases hcnc : c < (boxes.headD default).classes.length
    · rw [hdo] at hka hkb
      have hsound := foldl_pass_sound t
        (List.range (boxes.headD default).classes.length) boxes c
        (List.nodup_range _) (List.mem_range.mpr hcnc) a b ha hb hab hka hkb
      have heq : bbox_iou ((do_nms boxes t).getD a default)
          ((do_nms boxes t).getD b default)
          = bbox_iou (boxes.getD a default) (boxes.getD b default) :=
        (bbox_iou_congr ((hinv.2 a).1) ((hinv.2 b).1)).symm
      rw [heq]
      rcases hsound with h | h
      · exact h
      · rw [bbox_iou_comm _ _ (hwf _ hmema) (hwf _ hmemb)]
        exact h
    · exfalso
      apply hka
      have h1 : ((do_nms boxes t).getD a default).classes.length
          = (boxes.getD a default).classes.length := (hinv.2 a).2
      have h2 : (boxes.getD a default).classes.length
          = (boxes.headD default).classes.length := hlen _ hmema
      show ((do_nms boxes t).getD a default).classes.getD c 0 = 0
      set bx := (do_nms boxes t).getD a default with hbx
      have hle : bx.classes.length ≤ c := by
        rw [hbx, h1, h2]
        omega
      rw [List.getD_eq_getElem?_getD, List.getElem?_eq_none_iff.mpr hle]
      rfl
  · norm_num [bbox_iou, bbox_union, bbox_intersect, interval_overlap]
  · norm_num [do_nms, nmsClassPass, nmsSweep, nmsSuppress, argsortDesc,
      insertDesc, setClassZero, zeroClass, classScore, bbox_iou, bbox_union,
      bbox_intersect, interval_overlap, List.range_succ]

/-- Witness for C2: the general pairwise property instantiated at a
concrete pair of disjoint well-formed boxes that both survive NMS, with
every hypothesis discharged by evaluation. -/
theorem do_nms_spec_witness :
    bbox_iou
      ((do_nms [⟨0, 0, 10, 10, 1, [9/10]⟩, ⟨20, 0, 30, 10, 1, [8/10]⟩]
        (1/20)).getD 0 default)
      ((do_nms [⟨0, 0, 10, 10, 1, [9/10]⟩, ⟨20, 0, 30, 10, 1, [8/10]⟩]
        (1/20)).getD 1 default) < 1/20 :=
  do_nms_spec.1
    [⟨0, 0, 10, 10, 1, [9/10]⟩, ⟨20, 0, 30, 10, 1, [8/10]⟩] (1/20)
    (by simp) (by decide) (by intro b hb; fin_cases hb <;> rfl)
    0 1 0 (by norm_num) (by norm_num) (by norm_num)
    (by norm_num [do_nms, nmsClassPass, nmsSweep, nmsSuppress, argsortDesc,
      insertDesc, setClassZero, zeroClass, classScore, bbox_iou, bbox_union,
      bbox_intersect, interval_overlap, List.range_succ])
    (by norm_num [do_nms, nmsClassPass, nmsSweep, nmsSuppress, argsortDesc,
      insertDesc, setClassZero, zeroClass, classScore, bbox_iou, bbox_union,
      bbox_intersect, interval_overlap, List.range_succ])

/-- One detected object as recorded in a frame's `output_objects_array`
during a video scan; only the `name` field participates in the temporal
aggregation (counting and averaging). -/
structure DetEntry where
  name : String
  deriving Repr, DecidableEq

/-- The configuration slice of
`CustomVideoObjectDetection.detectObjectsFromVideo` (source lines 938-955)
that the modelled `performance_mode = False` branch reads: the video's
frames-per-second, the `frame_detection_interval`, the optional
`detection_timeout`, and whether each windowed callback was supplied. -/
structure VideoConfig where
  fps : Nat
  interval : Nat
  timeout : Option Nat
  hasPerFrame : Bool
  hasPerSecond : Bool
  hasPerMinute : Bool
  deriving Repr, DecidableEq

/-- The `try: d[k] += 1 except: d[k] = 1` counting idiom of
`detectObjectsFromVideo` (source lines 1142-1147) on an insertion-ordered
dict, modelled as an association list. -/
def bumpCount (m : List (String × Nat)) (k : String) : List (String × Nat) :=
  if m.any (fun p => p.1 = k) then
    m.map (fun p => if p.1 = k then (p.1, p.2 + 1) else p)
  else m ++ [(k, 1)]

/-- `output_objects_count` for one frame (source lines 1140-1147). -/
def countObjects (ds : List DetEntry) : List (String × Nat) :=
  ds.foldl (fun m d => bumpCount m d.name) []

/-- Merging one frame's count dict into a window's running totals
(source lines 1176-1181). -/
def addCount (m : List (String × Nat)) (k : String) (v : Nat) :
    List (String × Nat) :=
  if m.any (fun p => p.1 = k) then
    m.map (fun p => if p.1 = k then (p.1, p.2 + v) else p)
  else m ++ [(k, v)]

def addCounts (acc m : List (String × Nat)) : List (String × Nat) :=
  m.foldl (fun a p => addCount a p.1 p.2) acc

/-- Summing the count dicts of a window (source lines 1176-1181). -/
def sumCounts (ms : List (List (String × Nat))) : List (String × Nat) :=
  ms.foldl addCounts []

/-- The payload handed to `per_second_function` / `per_minute_function`
(source lines 1186-1201 and 1225-1240): the window position, the slice of
per-frame detection lists and count dicts, and the integer-truncated
per-window average; `fireFrame` records the frame index at which the
callback fired. -/
structure WindowEvent where
  position : Nat
  fireFrame : Nat
  frames : List (List DetEntry)
  counts : List (List (String × Nat))
  avg : List (String × Nat)
  deriving Repr, DecidableEq

def mkWindowEvent (window n : Nat) (framesDict : List (List DetEntry))
    (countsDict : List (List (String × Nat))) : WindowEvent :=
  { position := n / window
    fireFrame := n
    frames := framesDict.drop (n - window)
    counts := countsDict.drop (n - window)
    avg := (sumCounts (countsDict.drop (n - window))).map
      (fun p => (p.1, p.2 / window)) }

/-- The state threaded through the frame loop of `detectObjectsFromVideo`
(performance mode off): `n_frame`, `detection_timeout_count`, the two
append-only frame dicts (keyed `1..n` and hence modelled as lists whose
position `i` holds key `i+1`), the fired callback events, and whether the
timeout `break` was taken. -/
structure ScanState where
  nFrame : Nat
  timeoutCount : Nat
  framesDict : List (List DetEntry)
  countsDict : List (List (String × Nat))
  perFrameEvents : List (Nat × List DetEntry × List (String × Nat))
  perSecondEvents : List WindowEvent
  perMinuteEvents : List WindowEvent
  brokeEarly : Bool
  deriving Repr, DecidableEq

def initScanState : ScanState :=
  ⟨0, 0, [], [], [], [], [], false⟩

/-- The `output_objects_array` recorded for frame `n` (source lines
1118-1137): detection runs when `n == 1 or n % frame_detection_interval == 0`;
a `none` frame result models `detectObjectsFromImage` raising — the
`except` clause keeps the pre-initialised empty list. -/
def frameObjs (cfg : VideoConfig) (n : Nat)
    (fr : Option (List DetEntry)) : List DetEntry :=
  if n = 1 ∨ n % cfg.interval = 0 then
    match fr with
    | some r => r
    | none => []
  else []

/-- The per-frame body of the scan loop of `detectObjectsFromVideo`
(source lines 1118-1240, performance mode off), after the timeout check:
record the frame, count its objects, and fire the supplied callbacks whose
guard holds at this frame index. -/
def processFrame (cfg : VideoConfig) (st : ScanState)
    (fr : Option (List DetEntry)) : ScanState :=
  let n := st.nFrame
  let objs := frameObjs cfg n fr
  let counts := countObjects objs
  let framesDict := st.framesDict ++ [objs]
  let countsDict := st.countsDict ++ [counts]
  { st with
    framesDict := framesDict
    countsDict := countsDict
    perFrameEvents :=
      if cfg.hasPerFrame ∧ (n = 1 ∨ n % cfg.interval = 0) then
        st.perFrameEvents ++ [(n, objs, counts)]
      else st.perFrameEvents
    perSecondEvents :=
      if cfg.hasPerSecond ∧ n ≠ 1 ∧ n % cfg.fps = 0 then
        st.perSecondEvents ++ [mkWindowEvent cfg.fps n framesDict countsDict]
      else st.perSecondEvents
    perMinuteEvents :=
      if cfg.hasPerMinute ∧ n ≠ 1 ∧ n % (cfg.fps * 60) = 0 then
        st.perMinuteEvents
          ++ [mkWindowEvent (cfg.fps * 60) n framesDict countsDict]
      else st.perMinuteEvents }

/-- The frame loop of `detectObjectsFromVideo` (source lines 1075-1244,
performance mode off).  Each frame first increments `n_frame`; with a
truthy `detection_timeout`, a frame on a second boundary bumps
`detection_timeout_count` and the loop `break`s — before recording the
frame — once the count reaches the limit (source lines 1109-1116). -/
def runScan (cfg : VideoConfig) :
    ScanState → List (Option (List DetEntry)) → ScanState
  | st, [] => st
  | st, fr :: rest =>
    let st1 := { st with nFrame := st.nFrame + 1 }
    match cfg.timeout with
    | some tmo =>
      if tmo ≠ 0 then
        let st2 := if st1.nFrame % cfg.fps = 0 then
            { st1 with timeoutCount := st1.timeoutCount + 1 }
          else st1
        if st2.timeoutCount ≥ tmo then { st2 with brokeEarly := true }
        else runScan cfg (processFrame cfg st2 fr) rest
      else runScan cfg (processFrame cfg st1 fr) rest
    | none => runScan cfg (processFrame cfg st1 fr) rest

/-- `detectObjectsFromVideo` (performance mode off) over the sequence of
per-frame `detectObjectsFromImage` outcomes the video yields (`none` =
the call raised). -/
def detectObjectsFromVideoScan (cfg : VideoConfig)
    (frames : List (Option (List DetEntry))) : ScanState :=
  runScan cfg initScanState frames

/-- The payload handed to `video_complete_function` (source lines
1246-1271): the whole per-frame history and a per-label average divided —
with Python true division — by `n_frame`. -/
structure CompleteEvent where
  frames : List (List DetEntry)
  counts : List (List (String × Nat))
  avg : List (String × ℚ)
  deriving Repr, DecidableEq

/-- The gathering loop `for idx in range(n_frame): ... dict[idx + 1]`
(source lines 1253-1255): a missing key raises `KeyError`, modelled as
`Except.error`. -/
def gatherAux {α : Type} (dict : List α) (idx : Nat) :
    Nat → Except Unit (List α)
  | 0 => Except.ok []
  | k + 1 =>
    match dict[idx]? with
    | some v =>
      match gatherAux dict (idx + 1) k with
      | Except.ok vs => Except.ok (v :: vs)
      | Except.error e => Except.error e
    | none => Except.error ()

def gatherFrames {α : Type} (dict : List α) (n : Nat) :
    Except Unit (List α) :=
  gatherAux dict 0 n

/-- The `video_complete_function` block of `detectObjectsFromVideo`
(source lines 1246-1271), run once after the loop when the callback was
supplied. -/
def videoCompleteEvent (st : ScanState) : Except Unit CompleteEvent :=
  match gatherFrames st.framesDict st.nFrame,
      gatherFrames st.countsDict st.nFrame with
  | Except.ok fs, Except.ok cs =>
    Except.ok
      { frames := fs
        counts := cs
        avg := (sumCounts cs).map (fun p => (p.1, (p.2 : ℚ) / st.nFrame)) }
  | _, _ => Except.error ()

def videoComplete (hasComplete : Bool) (st : ScanState) :
    Option (Except Unit CompleteEvent) :=
  if hasComplete then some (videoCompleteEvent st) else none

lemma runScan_nil (cfg : VideoConfig) (st : ScanState) :
    runScan cfg st [] = st := rfl

lemma runScan_cons_noTimeout (cfg : VideoConfig) (h : cfg.timeout = none)
    (st : ScanState) (fr : Option (List DetEntry))
    (rest : List (Option (List DetEntry))) :
    runScan cfg st (fr :: rest)
      = runScan cfg (processFrame cfg { st with nFrame := st.nFrame + 1 } fr)
          rest := by
  cases cfg with
  | mk fps interval timeout hpf hpsec hpm =>
    have h2 : timeout = none := h
    subst h2
    rfl

lemma processFrame_nFrame (cfg : VideoConfig) (st : ScanState)
    (fr : Option (List DetEntry)) :
    (processFrame cfg st fr).nFrame = st.nFrame := rfl

lemma processFrame_framesDict (cfg : VideoConfig) (st : ScanState)
    (fr : Option (List DetEntry)) :
    (processFrame cfg st fr).framesDict
      = st.framesDict ++ [frameObjs cfg st.nFrame fr] := rfl

lemma processFrame_countsDict (cfg : VideoConfig) (st : ScanState)
    (fr : Option (List DetEntry)) :
    (processFrame cfg st fr).countsDict
      = st.countsDict ++ [countObjects (frameObjs cfg st.nFrame fr)] := rfl

lemma processFrame_perSecondEvents (cfg : VideoConfig) (st : ScanState)
    (fr : Option (List DetEntry)) :
    (processFrame cfg st fr).perSecondEvents
      = if cfg.hasPerSecond ∧ st.nFrame ≠ 1 ∧ st.nFrame % cfg.fps = 0 then
          st.perSecondEvents
            ++ [mkWindowEvent cfg.fps st.nFrame
              (st.framesDict ++ [frameObjs cfg st.nFrame fr])
              (st.countsDict
                ++ [countObjects (frameObjs cfg st.nFrame fr)])]
        else st.perSecondEvents := rfl

/-- The recorded detection lists the scan appends for a frame sequence
starting after frame index `base`. -/
def expectedDict (cfg : VideoConfig) :
    Nat → List (Option (List DetEntry)) → List (List DetEntry)
  | _, [] => []
  | base, fr :: rest =>
    frameObjs cfg (base + 1) fr :: expectedDict cfg (base + 1) rest

lemma expectedDict_length (cfg : VideoConfig) :
    ∀ (frames : List (Option (List DetEntry))) (base : Nat),
      (expectedDict cfg base frames).length = frames.length := by
  intro frames
  induction frames with
  | nil => intro base; rfl
  | cons fr rest ih =>
    intro base
    show (_ :: _).length = _
    rw [List.length_cons, List.length_cons, ih (base + 1)]

lemma frameObjs_none (cfg : VideoConfig) (n : Nat) :
    frameObjs cfg n none = [] := by
  unfold frameObjs
  split <;> rfl

lemma expectedDict_getElem?_none (cfg : VideoConfig) :
    ∀ (frames : List (Option (List DetEntry))) (base k : Nat),
      frames[k]? = some none → (expectedDict cfg base frames)[k]? = some [] := by
  intro frames
  induction frames with
  | nil =>
    intro base k hk
    exact absurd hk (by simp)
  | cons fr rest ih =>
    intro base k hk
    cases k with
    | zero =>
      have hfr : fr = none := by simpa using hk
      subst hfr
      rw [show expectedDict cfg base (none :: rest)
          = frameObjs cfg (base + 1) none :: expectedDict cfg (base + 1) rest
          from rfl,
        List.getElem?_cons_zero, frameObjs_none]
    | succ k2 =>
      rw [show expectedDict cfg base (fr :: rest)
          = frameObjs cfg (base + 1) fr :: expectedDict cfg (base + 1) rest
          from rfl,
        List.getElem?_cons_succ]
      exact ih (base + 1) k2 (by simpa using hk)

lemma runScan_nFrame_noTimeout (cfg : VideoConfig) (h : cfg.timeout = none) :
    ∀ (frames : List (Option (List DetEntry))) (st : ScanState),
      (runScan cfg st frames).nFrame = st.nFrame + frames.length := by
  intro frames
  induction frames with
  | nil => intro st; rfl
  | cons fr rest ih =>
    intro st
    rw [runScan_cons_noTimeout cfg h, ih, processFrame_nFrame]
    show st.nFrame + 1 + rest.length = st.nFrame + (rest.length + 1)
    omega

lemma runScan_framesDict_noTimeout (cfg : VideoConfig)
    (h : cfg.timeout = none) :
    ∀ (frames : List (Option (List DetEntry))) (st : ScanState),
      (runScan cfg st frames).framesDict
        = st.framesDict ++ expectedDict cfg st.nFrame frames := by
  intro frames
  induction frames with
  | nil =>
    intro st
    rw [runScan_nil]
    simp [expectedDict]
  | cons fr rest ih =>
    intro st
    rw [runScan_cons_noTimeout cfg h, ih, processFrame_framesDict,
      processFrame_nFrame]
    show (st.framesDict ++ [frameObjs cfg (st.nFrame + 1) fr])
        ++ expectedDict cfg (st.nFrame + 1) rest
      = st.framesDict
        ++ (frameObjs cfg (st.nFrame + 1) fr
          :: expectedDict cfg (st.nFrame + 1) rest)
    simp

lemma runScan_countsDict_noTimeout (cfg : VideoConfig)
    (h : cfg.timeout = none) :
    ∀ (frames : List (Option (List DetEntry))) (st : ScanState),
      (runScan cfg st frames).countsDict
        = st.countsDict
          ++ (expectedDict cfg st.nFrame frames).map countObjects := by
  intro frames
  induction frames with
  | nil =>
    intro st
    rw [runScan_nil]
    simp [expectedDict]
  | cons fr rest ih =>
    intro st
    rw [runScan_cons_noTimeout cfg h, ih, processFrame_countsDict,
      processFrame_nFrame]
    show (st.countsDict ++ [countObjects (frameObjs cfg (st.nFrame + 1) fr)])
        ++ (expectedDict cfg (st.nFrame + 1) rest).map countObjects
      = st.countsDict
        ++ ((frameObjs cfg (st.nFrame + 1) fr
          :: expectedDict cfg (st.nFrame + 1) rest).map countObjects)
    simp

/-- C4: a frame whose `detectObjectsFromImage` call raises (modelled by a
`none` outcome) is recorded in the frame history with an empty detection
list and an empty per-label count map, and the scan continues: the history
still covers every frame of the video (no timeout configured). -/
theorem detectVideo_frame_exception (cfg : VideoConfig)
    (frames : List (Option (List DetEntry))) (k : Nat)
    (htimeout : cfg.timeout = none) (hk : frames[k]? = some none) :
    (detectObjectsFromVideoScan cfg frames).framesDict[k]? = some [] ∧
    (detectObjectsFromVideoScan cfg frames).countsDict[k]? = some [] ∧
    (detectObjectsFromVideoScan cfg frames).framesDict.length
      = frames.length := by
  unfold detectObjectsFromVideoScan
  rw [runScan_framesDict_noTimeout cfg htimeout,
    runScan_countsDict_noTimeout cfg htimeout]
  show (expectedDict cfg 0 frames)[k]? = some []
    ∧ ((expectedDict cfg 0 frames).map countObjects)[k]? = some []
    ∧ (expectedDict cfg 0 frames).length = frames.length
  have hdict := expectedDict_getElem?_none cfg frames 0 k hk
  refine ⟨hdict, ?_, expectedDict_length cfg frames 0⟩
  rw [List.getElem?_map, hdict]
  rfl

/-- Witness for C4: a three-frame scan whose second frame raises; the
second history entry is empty and all three frames are recorded. -/
theorem detectVideo_frame_exception_witness :
    (detectObjectsFromVideoScan ⟨2, 1, none, false, false, false⟩
      [some [⟨"a"⟩], none, some [⟨"b"⟩]]).framesDict[1]? = some [] ∧
    (detectObjectsFromVideoScan ⟨2, 1, none, false, false, false⟩
      [some [⟨"a"⟩], none, some [⟨"b"⟩]]).countsDict[1]? = some [] ∧
    (detectObjectsFromVideoScan ⟨2, 1, none, false, false, false⟩
      [some [⟨"a"⟩], none, some [⟨"b"⟩]]).framesDict.length = 3 :=
  detectVideo_frame_exception ⟨2, 1, none, false, false, false⟩
    [some [⟨"a"⟩], none, some [⟨"b"⟩]] 1 rfl rfl

/-- The frame indices at which the per-second guard of the scan fires for
`k` further frames after frame index `base`. -/
def expectedSecondFires (cfg : VideoConfig) : Nat → Nat → List Nat
  | _, 0 => []
  | base, k + 1 =>
    (if cfg.hasPerSecond ∧ (base + 1) ≠ 1 ∧ (base + 1) % cfg.fps = 0 then
      [base + 1] else [])
      ++ expectedSecondFires cfg (base + 1) k

lemma runScan_perSecond_noTimeout (cfg : VideoConfig)
    (h : cfg.timeout = none) :
    ∀ (frames : List (Option (List DetEntry))) (st : ScanState),
      (runScan cfg st frames).perSecondEvents.map (fun e => e.fireFrame)
        = st.perSecondEvents.map (fun e => e.fireFrame)
          ++ expectedSecondFires cfg st.nFrame frames.length := by
  intro frames
  induction frames with
  | nil =>
    intro st
    rw [runScan_nil]
    simp [expectedSecondFires]
  | cons fr rest ih =>
    intro st
    rw [runScan_cons_noTimeout cfg h, ih, processFrame_nFrame,
      processFrame_perSecondEvents]
    show _ = st.perSecondEvents.map (fun e => e.fireFrame)
      ++ expectedSecondFires cfg st.nFrame (rest.length + 1)
    rw [show expectedSecondFires cfg st.nFrame (rest.length + 1)
        = (if cfg.hasPerSecond ∧ (st.nFrame + 1) ≠ 1
              ∧ (st.nFrame + 1) % cfg.fps = 0 then
            [st.nFrame + 1] else [])
          ++ expectedSecondFires cfg (st.nFrame + 1) rest.length from rfl]
    by_cases hguard : cfg.hasPerSecond ∧ (st.nFrame + 1) ≠ 1
        ∧ (st.nFrame + 1) % cfg.fps = 0
    · rw [if_pos hguard, if_pos hguard]
      simp [mkWindowEvent]
    · rw [if_neg hguard, if_neg hguard]
      simp

lemma expectedSecondFires_filter (cfg : VideoConfig)
    (hps : cfg.hasPerSecond = true) :
    ∀ (N base : Nat),
      expectedSecondFires cfg base N
        = ((List.range N).map (fun k => base + k + 1)).filter
            (fun n => decide (¬n = 1) && decide (n % cfg.fps = 0)) := by
  intro N
  induction N with
  | zero => intro base; rfl
  | succ k ih =>
    intro base
    rw [show expectedSecondFires cfg base (k + 1)
        = (if cfg.hasPerSecond ∧ (base + 1) ≠ 1
              ∧ (base + 1) % cfg.fps = 0 then
            [base + 1] else [])
          ++ expectedSecondFires cfg (base + 1) k from rfl,
      ih (base + 1), List.range_succ_eq_map, List.map_cons, List.map_map,
      List.filter_cons]
    have hfun : ((fun k => base + k + 1) ∘ Nat.succ)
        = (fun i => base + 1 + i + 1) := by
      funext i
      show base + (i + 1) + 1 = base + 1 + i + 1
      omega
    rw [hfun]
    simp only [Nat.add_zero]
    by_cases hcond : (base + 1) ≠ 1 ∧ (base + 1) % cfg.fps = 0
    · rw [if_pos ⟨hps, hcond.1, hcond.2⟩,
        if_pos (by simp [hcond.1, hcond.2])]
      rfl
    · rw [if_neg (by
        intro hfull
        exact hcond ⟨hfull.2.1, hfull.2.2⟩),
        if_neg (by
          simp only [Bool.and_eq_true, decide_eq_true_eq]
          intro hfull
          exact hcond hfull),
        List.nil_append]

lemma gatherAux_ok {α : Type} (dict : List α) :
    ∀ (k idx : Nat), idx + k ≤ dict.length →
      gatherAux dict idx k = Except.ok ((dict.drop idx).take k) := by
  intro k
  induction k with
  | zero =>
    intro idx _
    simp [gatherAux]
  | succ k2 ih =>
    intro idx hle
    have hidx : idx < dict.length := by omega
    rw [show gatherAux dict idx (k2 + 1)
        = (match dict[idx]? with
          | some v =>
            (match gatherAux dict (idx + 1) k2 with
            | Except.ok vs => Except.ok (v :: vs)
            | Except.error e => Except.error e)
          | none => Except.error ()) from rfl,
      List.getElem?_eq_getElem hidx, ih (idx + 1) (by omega),
      List.drop_eq_getElem_cons hidx]
    rfl

lemma videoCompleteEvent_ok (st : ScanState)
    (h1 : st.framesDict.length = st.nFrame)
    (h2 : st.countsDict.length = st.nFrame) :
    videoCompleteEvent st = Except.ok
      { frames := st.framesDict
        counts := st.countsDict
        avg := (sumCounts st.countsDict).map
          (fun p => (p.1, (p.2 : ℚ) / st.nFrame)) } := by
  unfold videoCompleteEvent gatherFrames
  rw [gatherAux_ok st.framesDict st.nFrame 0 (by omega),
    gatherAux_ok st.countsDict st.nFrame 0 (by omega),
    List.drop_zero, List.drop_zero,
    List.take_all_of_le (le_of_eq h1), List.take_all_of_le (le_of_eq h2)]

/-- C3: with no timeout configured and a supplied `per_second_function`,
the per-second callback fires exactly at the frames whose 1-based index is
a positive multiple of `frames_per_second` and is not `1`; and the
end-of-video callback fires exactly once, with its history — the basis of
the final averages — covering every frame of the video. -/
theorem detectVideo_perSecond_schedule (cfg : VideoConfig)
    (frames : List (Option (List DetEntry)))
    (htimeout : cfg.timeout = none) (hps : cfg.hasPerSecond = true)
    (hfps : 0 < cfg.fps) :
    ((detectObjectsFromVideoScan cfg frames).perSecondEvents.map
        (fun e => e.fireFrame))
      = ((List.range frames.length).map (fun k => k + 1)).filter
          (fun n => decide (¬n = 1) && decide (n % cfg.fps = 0)) ∧
    ∃ ev, videoComplete true (detectObjectsFromVideoScan cfg frames)
        = some (Except.ok ev) ∧ ev.frames.length = frames.length := by
  have hnf : (detectObjectsFromVideoScan cfg frames).nFrame
      = frames.length := by
    unfold detectObjectsFromVideoScan
    rw [runScan_nFrame_noTimeout cfg htimeout]
    show 0 + frames.length = frames.length
    omega
  have hfd : (detectObjectsFromVideoScan cfg frames).framesDict
      = expectedDict cfg 0 frames := by
    unfold detectObjectsFromVideoScan
    rw [runScan_framesDict_noTimeout cfg htimeout]
    rfl
  have hcd : (detectObjectsFromVideoScan cfg frames).countsDict
      = (expectedDict cfg 0 frames).map countObjects := by
    unfold detectObjectsFromVideoScan
    rw [runScan_countsDict_noTimeout cfg htimeout]
    rfl
  constructor
  · unfold detectObjectsFromVideoScan
    rw [runScan_perSecond_noTimeout cfg htimeout]
    show [] ++ expectedSecondFires cfg 0 frames.length = _
    rw [List.nil_append, expectedSecondFires_filter cfg hps frames.length 0]
    congr 1
    exact List.map_congr_left (fun a _ => by omega)
  · have hl1 : (detectObjectsFromVideoScan cfg frames).framesDict.length
        = (detectObjectsFromVideoScan cfg frames).nFrame := by
      rw [hfd, hnf, expectedDict_length]
    have hl2 : (detectObjectsFromVideoScan cfg frames).countsDict.length
        = (detectObjectsFromVideoScan cfg frames).nFrame := by
      rw [hcd, hnf, List.length_map, expectedDict_length]
    refine ⟨CompleteEvent.mk
      (detectObjectsFromVideoScan cfg frames).framesDict
      (detectObjectsFromVideoScan cfg frames).countsDict
      ((sumCounts (detectObjectsFromVideoScan cfg frames).countsDict).map
        (fun p => (p.1,
          (p.2 : ℚ) / (detectObjectsFromVideoScan cfg frames).nFrame))),
      ?_, ?_⟩
    · unfold videoComplete
      rw [if_pos rfl, videoCompleteEvent_ok _ hl1 hl2]
    · show (detectObjectsFromVideoScan cfg frames).framesDict.length = _
      rw [hfd, expectedDict_length]

/-- Witness for C3: a 30 fps, 90-frame video with
`frame_detection_interval = 1` — via `detectVideo_perSecond_schedule`, the
per-second callback fires exactly at frames 30, 60 and 90 and the
end-of-video callback fires once with a history of 90 frames. -/
theorem detectVideo_perSecond_schedule_witness :
    ((detectObjectsFromVideoScan ⟨30, 1, none, false, true, false⟩
        (List.replicate 90 (some [⟨"a"⟩]))).perSecondEvents.map
        (fun e => e.fireFrame))
      = [30, 60, 90] ∧
    videoComplete true (detectObjectsFromVideoScan
        ⟨30, 1, none, false, true, false⟩
        (List.replicate 90 (some [⟨"a"⟩]))) ≠ none ∧
    videoComplete true (detectObjectsFromVideoScan
        ⟨30, 1, none, false, true, false⟩
        (List.replicate 90 (some [⟨"a"⟩]))) ≠ some (Except.error ()) := by
  have h := detectVideo_perSecond_schedule ⟨30, 1, none, false, true, false⟩
    (List.replicate 90 (some [⟨"a"⟩])) rfl rfl (by norm_num)
  obtain ⟨ev, hev, _⟩ := h.2
  refine ⟨?_, ?_, ?_⟩
  · rw [h.1]
    decide
  · rw [hev]
    simp
  · rw [hev]
    intro hcontra
    exact absurd (Option.some_inj.mp hcontra) (by simp)

/-- C1 evaluated at a failing input (fps 1, `detection_timeout = 2`, three
frames, `video_complete_function` supplied): the scan does `break` early
once the per-second bucket count reaches the limit, and the history covers
only the frames seen before the break — but the end-of-scan callback does
NOT fire as on normal completion: its gathering loop reads the dict at the
already-incremented `n_frame`, which the break left unrecorded, so the
lookup fails (a Python `KeyError`), modelled as `Except.error`. -/
theorem detectVideo_timeout_keyerror :
    (detectObjectsFromVideoScan ⟨1, 1, some 2, false, false, false⟩
      [some [⟨"a"⟩], some [⟨"b"⟩], some [⟨"c"⟩]]).brokeEarly = true ∧
    (detectObjectsFromVideoScan ⟨1, 1, some 2, false, false, false⟩
      [some [⟨"a"⟩], some [⟨"b"⟩], some [⟨"c"⟩]]).nFrame = 2 ∧
    (detectObjectsFromVideoScan ⟨1, 1, some 2, false, false, false⟩
      [some [⟨"a"⟩], some [⟨"b"⟩], some [⟨"c"⟩]]).framesDict
      = [[⟨"a"⟩]] ∧
    videoComplete true (detectObjectsFromVideoScan
        ⟨1, 1, some 2, false, false, false⟩
        [some [⟨"a"⟩], some [⟨"b"⟩], some [⟨"c"⟩]])
      = some (Except.error ()) := by
  refine ⟨rfl, rfl, rfl, ?_⟩
  rfl

/-- The shape of a non-`None` return of `detectObjectsFromImage`
(source lines 878-891). -/
inductive ImgReturnShape
  | objects
  | frameAndObjects
  | objectsAndExtracts
  | frameObjectsExtracts
  deriving Repr, DecidableEq

/-- Observable outcome of one `detectObjectsFromImage` call: the raised
`ValueError` (if any), whether control reached the yolov3 detection
pipeline, and the shape of the returned value (`none` = the function fell
through every `return` and returned Python `None`). -/
structure ImgFlow where
  raised : Option String
  pipelineRan : Bool
  returned : Option ImgReturnShape
  deriving Repr, DecidableEq

/-- Control-flow skeleton of
`CustomObjectDetection.detectObjectsFromImage` (source lines 743-891) for
a model loaded via `loadModel` with model type yolov3, in source order:
the loaded-model check (line 743), the `output_image_path` regex check
taken only when `output_type == "file"` (lines 746-763, abstracted by
`output_path_ok`), the `input_type` dispatch whose `else` raises (lines
778-783), then the yolov3 pipeline (lines 800-861) and the return
dispatch on `extract_detected_objects` and `output_type` (lines 863-891),
which returns `None` when `output_type` matches neither `"file"` nor
`"array"`. -/
def detectObjectsFromImageFlow (model_loaded : Bool)
    (input_type output_type : String)
    (output_path_ok extract_detected_objects : Bool) : ImgFlow :=
  if ¬model_loaded then
    { raised := some "ValueError: call loadModel first"
      pipelineRan := false
      returned := none }
  else if output_type = "file" ∧ ¬output_path_ok then
    { raised := some "ValueError: invalid output_image_path"
      pipelineRan := false
      returned := none }
  else if input_type ≠ "file" ∧ input_type ≠ "array" then
    { raised := some "ValueError: invalid input_type"
      pipelineRan := false
      returned := none }
  else if extract_detected_objects then
    if output_type = "file" then
      ⟨none, true, some ImgReturnShape.objectsAndExtracts⟩
    else if output_type = "array" then
      ⟨none, true, some ImgReturnShape.frameObjectsExtracts⟩
    else ⟨none, true, none⟩
  else
    if output_type = "file" then
      ⟨none, true, some ImgReturnShape.objects⟩
    else if output_type = "array" then
      ⟨none, true, some ImgReturnShape.frameAndObjects⟩
    else ⟨none, true, none⟩

/-- C10: after `loadModel` (yolov3), an `output_type` that is neither
`"file"` nor `"array"` still runs the full detection pipeline but the call
returns `None` without raising; whereas an `input_type` that is neither
`"file"` nor `"array"` raises a `ValueError` before any detection. -/
theorem detectObjectsFromImage_type_dispatch :
    (∀ (input_type output_type : String)
        (output_path_ok extract_detected_objects : Bool),
      output_type ≠ "file" → output_type ≠ "array" →
      (input_type = "file" ∨ input_type = "array") →
      detectObjectsFromImageFlow true input_type output_type
          output_path_ok extract_detected_objects
        = ⟨none, true, none⟩) ∧
    (∀ (input_type output_type : String)
        (output_path_ok extract_detected_objects : Bool),
      input_type ≠ "file" → input_type ≠ "array" →
      ((detectObjectsFromImageFlow true input_type output_type
          output_path_ok extract_detected_objects).raised).isSome = true ∧
      (detectObjectsFromImageFlow true input_type output_type
          output_path_ok extract_detected_objects).pipelineRan = false) := by
  constructor
  · intro input_type output_type output_path_ok extract_detected_objects
      hof hoa hin
    unfold detectObjectsFromImageFlow
    rw [if_neg (by simp), if_neg (by
      intro hcontra
      exact hof hcontra.1)]
    rw [if_neg (by
      intro hcontra
      rcases hin with h | h
      · exact hcontra.1 h
      · exact hcontra.2 h)]
    by_cases hex : extract_detected_objects
    · rw [if_pos hex, if_neg hof, if_neg hoa]
    · rw [if_neg hex, if_neg hof, if_neg hoa]
  · intro input_type output_type output_path_ok extract_detected_objects
      hif hia
    unfold detectObjectsFromImageFlow
    rw [if_neg (by simp)]
    by_cases hout : output_type = "file" ∧ ¬output_path_ok
    · rw [if_pos hout]
      exact ⟨rfl, rfl⟩
    · rw [if_neg hout, if_pos ⟨hif, hia⟩]
      exact ⟨rfl, rfl⟩

/-- Witness for C10: `output_type = "numpy"` with a valid `input_type`
returns `None` with the pipeline run; `input_type = "stream"` raises
before any detection. -/
theorem detectObjectsFromImage_type_dispatch_witness :
    detectObjectsFromImageFlow true "array" "numpy" true false
      = ⟨none, true, none⟩ ∧
    ((detectObjectsFromImageFlow true "stream" "file" true
        false).raised).isSome = true ∧
    (detectObjectsFromImageFlow true "stream" "file" true
      false).pipelineRan = false :=
  ⟨detectObjectsFromImage_type_dispatch.1 "array" "numpy" true false
      (by decide) (by decide) (Or.inr rfl),
    detectObjectsFromImage_type_dispatch.2 "stream" "file" true false
      (by decide) (by decide)⟩
